/-
Verification of the task-tracker CLI core (src/task-cli.cpp).

The embedding works over `List Char` for C++ strings and `Int` for C++
`int` (with the representable range checked explicitly where the source
depends on it: INT_MAX = 2147483647).  File I/O is not modelled: the
codec is verified from content string to task list and back
(`saveTasksString` is the exact text `saveTasks` writes,
`loadTasksFromContent` is `loadTasks` applied to the text read).
`std::string::find`, `rfind`, `substr` and positions are modelled by
index-returning functions over `List Char`.
-/
import Mathlib

namespace TaskCli

/-- A task record, mirroring the private fields of class `Task`. -/
structure Task where
  id : Int
  description : List Char
  status : List Char
  createdAt : List Char
  updatedAt : List Char
deriving Repr, DecidableEq

/-- The characters matched by C `isspace` in the default locale, the set
used by `std::isspace` and by the literal `" \t\n\r\f\v"` in the source. -/
def isSpaceC (c : Char) : Bool :=
  c = ' ' || c = '\t' || c = '\n' || c = '\r' || c = '\x0c' || c = '\x0b'

/-- Per-character escaping: the `switch` in `escapeJsonString`. -/
def escChar (c : Char) : List Char :=
  if c = '"' then ['\\', '"']
  else if c = '\\' then ['\\', '\\']
  else [c]

/-- `escapeJsonString`: escape `"` and `\`, leave everything else alone. -/
def escapeJsonString : List Char → List Char
  | [] => []
  | c :: rest => escChar c ++ escapeJsonString rest

/-- The loop of `unescapeJsonString`, with the `escaped` flag as state.
When the input ends while `escaped` is set, the pending backslash is
dropped, exactly as in the source. -/
def unescapeGo : Bool → List Char → List Char
  | _, [] => []
  | true, c :: rest =>
      if c = '"' then '"' :: unescapeGo false rest
      else if c = '\\' then '\\' :: unescapeGo false rest
      else '\\' :: c :: unescapeGo false rest
  | false, c :: rest =>
      if c = '\\' then unescapeGo true rest
      else c :: unescapeGo false rest

/-- `unescapeJsonString`. -/
def unescapeJsonString (input : List Char) : List Char :=
  unescapeGo false input

/-- First index of character `c` in `s` (`std::string::find(c)` with the
result as an offset into `s`). -/
def charFindIn : List Char → Char → Option Nat
  | [], _ => none
  | x :: xs, c => if x = c then some 0 else (charFindIn xs c).map (· + 1)

/-- `std::string::find(c, start)`. -/
def charFindFrom (s : List Char) (c : Char) (start : Nat) : Option Nat :=
  (charFindIn (s.drop start) c).map (· + start)

/-- `std::string::rfind(c)`: the last index holding `c`. -/
def charRFind (s : List Char) (c : Char) : Option Nat :=
  (charFindIn s.reverse c).map (fun j => s.length - 1 - j)

/-- `std::string::find(pat)` for a pattern string: the first index at
which `pat` is a prefix of the remaining text. -/
def subFind : List Char → List Char → Option Nat
  | s, pat =>
    if pat.isPrefixOf s then some 0
    else
      match s with
      | [] => none
      | _ :: rest => (subFind rest pat).map (· + 1)

/-- The whitespace-skipping loop of `findJsonValue`: advance `i` while
in bounds and on an `isspace` character. -/
def skipWs (s : List Char) (i : Nat) : Nat :=
  i + ((s.drop i).takeWhile isSpaceC).length

/-- The quoted-string scanning loop of `findJsonValue`: starting just
after the opening quote, return the offset of the closing unescaped
quote, honouring the `inEscape` flag; `none` when the text ends first. -/
def strScan : List Char → Bool → Option Nat
  | [], _ => none
  | _ :: rest, true => (strScan rest false).map (· + 1)
  | c :: rest, false =>
      if c = '\\' then (strScan rest true).map (· + 1)
      else if c = '"' then some 0
      else (strScan rest false).map (· + 1)

/-- Trailing-whitespace trim via `find_last_not_of(" \t\n\r\f\v")`
followed by `substr(0, lastChar + 1)`; when every character is
whitespace the source returns the empty string, which coincides with
this formulation. -/
def trimTrailingWs (s : List Char) : List Char :=
  (s.reverse.dropWhile isSpaceC).reverse

/-- The numeric validation of `findJsonValue`: non-empty, all digits,
with an optional leading minus (note: the bare string "-" passes, as in
the source, and is only rejected later by `stoi`). -/
def isNumStr (s : List Char) : Bool :=
  match s with
  | [] => false
  | c :: rest => if c = '-' then rest.all Char.isDigit else (c :: rest).all Char.isDigit

/-- The non-string branch of `findJsonValue`: scan to the next comma or
closing brace (whichever comes first), trim trailing whitespace, and
validate the remainder as a number; return "" on failure. -/
def numericExtract (objectStr : List Char) (valueStart : Nat) : List Char :=
  let commaPos := charFindFrom objectStr ',' valueStart
  let bracePos := charFindFrom objectStr '}' valueStart
  let valueEnd :=
    match commaPos, bracePos with
    | some cp, some bp => min cp bp
    | some cp, none => cp
    | none, some bp => bp
    | none, none => objectStr.length
  let numStr := trimTrailingWs ((objectStr.drop valueStart).take (valueEnd - valueStart))
  if isNumStr numStr then numStr else []

/-- `findJsonValue(objectStr, key)`: locate the literal `"key":` token,
skip whitespace, then read either a quoted string value (unescaped) or
a numeric value; return "" when absent or malformed. -/
def findJsonValue (objectStr : List Char) (key : List Char) : List Char :=
  let keyPattern := '"' :: (key ++ ['"', ':'])
  match subFind objectStr keyPattern with
  | none => []
  | some keyPos =>
    let valueStart := skipWs objectStr (keyPos + keyPattern.length)
    match objectStr.drop valueStart with
    | [] => []
    | c :: restAfter =>
      if c = '"' then
        match strScan restAfter false with
        | some closeOff => unescapeJsonString (restAfter.take closeOff)
        | none => []
      else numericExtract objectStr valueStart

/-- Decimal digits of a natural number, most significant first; the
fuel argument makes the division recursion structural. -/
def natToDigitsAux : Nat → Nat → List Char → List Char
  | 0, _, acc => acc
  | fuel + 1, n, acc =>
      if n < 10 then Nat.digitChar (n % 10) :: acc
      else natToDigitsAux fuel (n / 10) (Nat.digitChar (n % 10) :: acc)

/-- Decimal digit string of a natural number. -/
def natToDigits (n : Nat) : List Char :=
  natToDigitsAux (n + 1) n []

/-- The text `operator<<` prints for a C++ `int`. -/
def intToChars (i : Int) : List Char :=
  if i < 0 then '-' :: natToDigits (-i).toNat else natToDigits i.toNat

/-- Numeric value of a digit string (each character assumed `0`-`9`). -/
def natOfDigits (l : List Char) : Nat :=
  List.foldl (fun acc c => acc * 10 + (c.toNat - 48)) 0 l

/-- `std::stoi` restricted to the strings `findJsonValue` lets through
(optional leading minus, then digits): `none` models the
`invalid_argument` ("-" alone) and `out_of_range` (outside the `int`
range) exceptions that `loadTasks` catches by skipping the task. -/
def stoiValid (s : List Char) : Option Int :=
  match s with
  | [] => none
  | c :: rest =>
      if c = '-' then
        if rest = [] then none
        else if (natOfDigits rest : Int) > 2147483648 then none
        else some (-(natOfDigits rest : Int))
      else if (natOfDigits (c :: rest) : Int) > 2147483647 then none
      else some (natOfDigits (c :: rest) : Int)

/-- Valid status keywords, as tested throughout the source. -/
def isValidStatus (s : List Char) : Bool :=
  s = "todo".toList || s = "in-progress".toList || s = "done".toList

/-- The per-object body of the `loadTasks` loop: extract the five
fields, validate them, and produce a task only when all checks pass
(the source accumulates a `taskValid` flag and `push_back`s only when it
survives; a `stoi` exception likewise skips the task). -/
def parseTaskObject (objectStr : List Char) : Option Task :=
  let idStr := findJsonValue objectStr "id".toList
  let descStr := findJsonValue objectStr "description".toList
  let statusStr := findJsonValue objectStr "status".toList
  let createdStr := findJsonValue objectStr "createdAt".toList
  let updatedStr := findJsonValue objectStr "updatedAt".toList
  if idStr = [] then none
  else
    match stoiValid idStr with
    | none => none
    | some idVal =>
      if descStr = [] then none
      else if statusStr = [] ∨ ¬ isValidStatus statusStr then none
      else if createdStr = [] then none
      else if updatedStr = [] then none
      else some ⟨idVal, descStr, statusStr, createdStr, updatedStr⟩

/-- The object-scanning `while` loop of `loadTasks`.  `fuel` only makes
the recursion structural; the top-level call supplies more fuel than the
loop can consume, so it never runs out.  All stop conditions mirror the
source: no further opening brace, opening brace at or past the array
end, no closing brace, a nested opening brace before the closing one,
or a closing brace at or past the array end. -/
def scanLoop : Nat → List Char → Nat → Nat → List Task → List Task
  | 0, _, _, _, acc => acc
  | fuel + 1, content, endPos, currentPos, acc =>
    if currentPos < endPos then
      match charFindFrom content '{' currentPos with
      | none => acc
      | some objStart =>
        if objStart ≥ endPos then acc
        else
          match charFindFrom content '}' (objStart + 1),
                charFindFrom content '{' (objStart + 1) with
          | none, _ => acc
          | some objEnd, nextObjStart =>
            if (match nextObjStart with
                | some n => decide (objEnd > n)
                | none => false) then acc
            else if objEnd ≥ endPos then acc
            else
              let objectStr := (content.drop (objStart + 1)).take (objEnd - objStart - 1)
              let acc' :=
                match parseTaskObject objectStr with
                | some t => acc ++ [t]
                | none => acc
              scanLoop fuel content endPos (objEnd + 1) acc'
    else acc

/-- Leading- and trailing-whitespace trim (the two `erase` calls of
`loadTasks`). -/
def trimWs (s : List Char) : List Char :=
  ((s.dropWhile isSpaceC).reverse.dropWhile isSpaceC).reverse

/-- `loadTasks` from the file content onward: the whitespace-only check,
the trim, the empty/`[]` check, the array-bracket location, and the
object scan. -/
def loadTasksFromContent (raw : List Char) : List Task :=
  if raw.all isSpaceC then []
  else
    let content := trimWs raw
    if content = [] ∨ content = "[]".toList then []
    else
      match charFindFrom content '[' 0, charRFind content ']' with
      | some startPos, some endPos =>
          if startPos ≥ endPos then []
          else scanLoop (content.length + 1) content endPos (startPos + 1) []
      | _, _ => []

/-- One task object as printed by `saveTasks` (the text between and
including the braces, with its two-space indent). -/
def taskBody (t : Task) : List Char :=
  "\n    \"id\": ".toList ++ (intToChars t.id ++
  (",\n    \"description\": \"".toList ++ (escapeJsonString t.description ++
  ("\",\n    \"status\": \"".toList ++ (escapeJsonString t.status ++
  ("\",\n    \"createdAt\": \"".toList ++ (escapeJsonString t.createdAt ++
  ("\",\n    \"updatedAt\": \"".toList ++ (escapeJsonString t.updatedAt ++
  "\"\n  ".toList)))))))))

/-- A full task block `  {...}`. -/
def encodeTaskBlock (t : Task) : List Char :=
  '\x20' :: '\x20' :: '\x7b' :: (taskBody t ++ ['\x7d'])

/-- The inner part of the array `saveTasks` prints: each block followed
by ",\n" except the last, which is followed by "\n". -/
def middleR : List Task → List Char
  | [] => []
  | [t] => encodeTaskBlock t ++ "\n".toList
  | t :: rest => encodeTaskBlock t ++ (",\n".toList ++ middleR rest)

/-- The exact text `saveTasks` writes for a task list. -/
def saveTasksString (tasks : List Task) : List Char :=
  "[\n".toList ++ (middleR tasks ++ "]\n".toList)

/-- `getCurrentTimestamp` is the host clock; operations that stamp
tasks take the current time as an explicit argument `now`. -/
def setStatus (now : List Char) (t : Task) (newStatus : List Char) : Task :=
  if isValidStatus newStatus then
    { t with status := newStatus, updatedAt := now }
  else t

/-- `Task::setDescription`: set the description and refresh the
timestamp. -/
def setDescription (now : List Char) (t : Task) (newDescription : List Char) : Task :=
  { t with description := newDescription, updatedAt := now }

/-- The maximum-id loop of `getNextId` (`maxId` starts at 0). -/
def maxIdFold (tasks : List Task) : Int :=
  List.foldl (fun m t => if t.id > m then t.id else m) 0 tasks

/-- `getNextId`: 1 on an empty collection, otherwise one past the
computed maximum; the `overflow_error` throw is an `Except.error`. -/
def getNextId (tasks : List Task) : Except (List Char) Int :=
  if tasks = [] then Except.ok 1
  else if maxIdFold tasks ≥ 2147483647 then
    Except.error "Cannot generate new task ID, maximum integer value reached.".toList
  else Except.ok (maxIdFold tasks + 1)

/-- `addTask`: the returned flag records whether `saveTasks` ran. -/
def addTask (now : List Char) (tasks : List Task) (description : List Char) :
    List Task × Bool :=
  if description = [] then (tasks, false)
  else
    match getNextId tasks with
    | Except.error _ => (tasks, false)
    | Except.ok newId =>
        (tasks ++ [⟨newId, description, "todo".toList, now, now⟩], true)

/-- The first-match mutation of the `updateTask` loop. -/
def updateFirstDesc (now : List Char) (id : Int) (nd : List Char) :
    List Task → List Task
  | [] => []
  | t :: ts =>
      if t.id = id then setDescription now t nd :: ts
      else t :: updateFirstDesc now id nd ts

/-- `updateTask`: reject an empty description; otherwise update the
first task with the given id and save exactly when one was found. -/
def updateTask (now : List Char) (tasks : List Task) (id : Int)
    (newDescription : List Char) : List Task × Bool :=
  if newDescription = [] then (tasks, false)
  else if tasks.any (fun t => t.id = id) then
    (updateFirstDesc now id newDescription tasks, true)
  else (tasks, false)

/-- `deleteTask`: `remove_if` erases every task with the id; save runs
exactly when at least one was removed. -/
def deleteTask (tasks : List Task) (id : Int) : List Task × Bool :=
  if tasks.any (fun t => t.id = id) then
    (tasks.filter (fun t => ¬ t.id = id), true)
  else (tasks, false)

/-- The first-match mutation of the `markTaskStatus` loop. -/
def markFirstStatus (now : List Char) (id : Int) (st : List Char) :
    List Task → List Task
  | [] => []
  | t :: ts =>
      if t.id = id then setStatus now t st :: ts
      else t :: markFirstStatus now id st ts

/-- `markTaskStatus`: reject an invalid status keyword up front;
otherwise set the status on the first task with the given id and save
exactly when one was found. -/
def markTaskStatus (now : List Char) (tasks : List Task) (id : Int)
    (st : List Char) : List Task × Bool :=
  if ¬ isValidStatus st then (tasks, false)
  else if tasks.any (fun t => t.id = id) then
    (markFirstStatus now id st tasks, true)
  else (tasks, false)

end TaskCli

namespace TaskCli

/-! ### Escaping (C2) -/

theorem unescapeGo_escChar (c : Char) (rest : List Char) :
    unescapeGo false (escChar c ++ rest) =
      c :: unescapeGo false rest := by
  by_cases h1 : c = '"'
  · subst h1; simp [escChar, unescapeGo]
  · by_cases h2 : c = '\\'
    · subst h2; simp [escChar, unescapeGo]
    · simp [escChar, h1, h2, unescapeGo]

theorem unescape_escape (S : List Char) :
    unescapeJsonString (escapeJsonString S) = S := by
  induction S with
  | nil => rfl
  | cons c rest ih =>
    show unescapeGo false (escChar c ++ escapeJsonString rest) = c :: rest
    rw [unescapeGo_escChar]
    exact congrArg (c :: ·) ih

/-- C2: for every string with no newline or other control characters,
unescaping its escaped form gives the string back; escaping maps a
double-quote and a backslash each to a two-character escape and leaves
every other character unchanged; unescaping inverts exactly those two
escapes (an unrecognised escape is kept verbatim). -/
theorem escape_unescape_spec :
    (∀ S : List Char, (∀ c ∈ S, ¬ (c.toNat < 32 ∨ c.toNat = 127)) →
      unescapeJsonString (escapeJsonString S) = S) ∧
    escChar '"' = ['\\', '"'] ∧ (escChar '"').length = 2 ∧
    escChar '\\' = ['\\', '\\'] ∧ (escChar '\\').length = 2 ∧
    (∀ c : Char, c ≠ '"' → c ≠ '\\' → escChar c = [c]) ∧
    unescapeJsonString ['\\', '"'] = ['"'] ∧
    unescapeJsonString ['\\', '\\'] = ['\\'] ∧
    (∀ c : Char, c ≠ '"' → c ≠ '\\' → unescapeJsonString ['\\', c] = ['\\', c]) := by
  refine ⟨fun S _ => unescape_escape S, rfl, rfl, rfl, rfl, ?_, rfl, rfl, ?_⟩
  · intro c h1 h2; simp [escChar, h1, h2]
  · intro c h1 h2; simp [unescapeJsonString, unescapeGo, h1, h2]

/-- C2 witness: the round trip at a concrete string holding a quote and
a backslash, and verbatim preservation of an unrecognised escape. -/
theorem escape_unescape_spec_witness :
    unescapeJsonString (escapeJsonString "a\"b\\c".toList) = "a\"b\\c".toList ∧
    unescapeJsonString ['\\', 'n'] = ['\\', 'n'] :=
  ⟨escape_unescape_spec.1 "a\"b\\c".toList (by decide),
   escape_unescape_spec.2.2.2.2.2.2.2.2 'n' (by decide) (by decide)⟩

/-! ### getNextId (C3) -/

theorem maxIdFold_le (tasks : List Task) :
    ∀ a m : Int, a ≤ m → (∀ t ∈ tasks, t.id ≤ m) →
      List.foldl (fun m t => if t.id > m then t.id else m) a tasks ≤ m := by
  induction tasks with
  | nil => intro a m ha _; simpa using ha
  | cons t ts ih =>
    intro a m ha hall
    simp only [List.foldl_cons]
    have ht := hall t (by simp)
    by_cases h : t.id > a
    · simp only [h, if_pos]
      exact ih _ _ ht (fun u hu => hall u (by simp [hu]))
    · simp only [h, if_neg, if_false]
      exact ih _ _ ha (fun u hu => hall u (by simp [hu]))

theorem maxIdFold_init_le (ts : List Task) :
    ∀ a : Int, a ≤ List.foldl (fun m t => if t.id > m then t.id else m) a ts := by
  induction ts with
  | nil => intro a; simp
  | cons u us ih =>
    intro a
    simp only [List.foldl_cons]
    refine le_trans ?_ (ih _)
    by_cases h1 : u.id > a <;> simp [h1] <;> omega

theorem maxIdFold_ge (tasks : List Task) :
    ∀ a : Int, ∀ t ∈ tasks,
      t.id ≤ List.foldl (fun m t => if t.id > m then t.id else m) a tasks := by
  induction tasks with
  | nil => intro a t ht; cases ht
  | cons u us ih =>
    intro a t ht
    rcases List.mem_cons.mp ht with h | h
    · subst h
      simp only [List.foldl_cons]
      refine le_trans ?_ (maxIdFold_init_le us _)
      by_cases h1 : t.id > a <;> simp [h1] <;> omega
    · simp only [List.foldl_cons]
      exact ih _ t h

/-- C3 counterexample: on the non-empty collection whose single task has
id −5 the source returns 1, not one plus the maximum id (−4): the
`maxId` accumulator starts at 0, so an all-negative collection yields 1. -/
theorem getNextId_counterexample :
    ([⟨-5, ['a'], "todo".toList, ['c'], ['u']⟩] : List Task).map Task.id = [-5] ∧
    getNextId [⟨-5, ['a'], "todo".toList, ['c'], ['u']⟩] = Except.ok 1 ∧
    (1 : Int) ≠ -5 + 1 := by
  refine ⟨rfl, rfl, by decide⟩

/-- C3 (amended): `getNextId` returns 1 for the empty collection; for
every non-empty collection whose maximum id is nonnegative it returns
one plus that maximum when the maximum is below the `int` limit
2147483647, and signals the overflow as an `Except.error` (a hard
failure, not a wrapped value) when the maximum is at or above the
limit.  (For a non-empty collection whose ids are all negative the
source returns 1 instead, because the maximum accumulator starts at 0 —
see the counterexample.) -/
theorem getNextId_spec :
    getNextId [] = Except.ok 1 ∧
    (∀ (tasks : List Task) (m : Int), tasks ≠ [] → m ∈ tasks.map Task.id →
      (∀ t ∈ tasks, t.id ≤ m) → 0 ≤ m →
      (m < 2147483647 → getNextId tasks = Except.ok (m + 1)) ∧
      (2147483647 ≤ m → ∃ e, getNextId tasks = Except.error e)) := by
  refine ⟨rfl, ?_⟩
  intro tasks m hne hmem hall hpos
  obtain ⟨t, ht, hid⟩ := List.mem_map.mp hmem
  have hfold : maxIdFold tasks = m := by
    apply le_antisymm
    · exact maxIdFold_le tasks 0 m hpos hall
    · rw [← hid]; exact maxIdFold_ge tasks 0 t ht
  constructor
  · intro hlt
    rw [getNextId, if_neg hne, hfold, if_neg (by omega : ¬ m ≥ 2147483647)]
  · intro hge
    have herr : getNextId tasks = Except.error
        "Cannot generate new task ID, maximum integer value reached.".toList := by
      rw [getNextId, if_neg hne, hfold, if_pos (by omega : m ≥ 2147483647)]
    exact ⟨_, herr⟩

/-- C3 witness: the spec's own example `[{id:5},{id:2}] → 6`, and the
overflow signal at id = 2147483647. -/
theorem getNextId_spec_witness :
    getNextId [⟨5, ['a'], "todo".toList, ['c'], ['u']⟩,
               ⟨2, ['b'], "todo".toList, ['c'], ['u']⟩] = Except.ok 6 ∧
    (∃ e, getNextId [⟨2147483647, ['a'], "todo".toList, ['c'], ['u']⟩] =
      Except.error e) := by
  constructor
  · have h := (getNextId_spec.2
      [⟨5, ['a'], "todo".toList, ['c'], ['u']⟩,
       ⟨2, ['b'], "todo".toList, ['c'], ['u']⟩] 5
      (by decide) (by decide) (by decide) (by decide)).1 (by decide)
    simpa using h
  · exact (getNextId_spec.2
      [⟨2147483647, ['a'], "todo".toList, ['c'], ['u']⟩] 2147483647
      (by decide) (by decide) (by decide) (by decide)).2 (by decide)

end TaskCli

namespace TaskCli

/-! ### Task::setStatus (C8) -/

/-- C8: `setStatus` with a string that is not one of todo, in-progress,
done leaves every field of the task unchanged (the warning branch); with
a valid value only `status` and `updatedAt` change while `id`,
`description` and `createdAt` are untouched. -/
theorem setStatus_spec :
    (∀ (now : List Char) (t : Task) (s : List Char), isValidStatus s = false →
      setStatus now t s = t) ∧
    (∀ (now : List Char) (t : Task) (s : List Char), isValidStatus s = true →
      (setStatus now t s).id = t.id ∧
      (setStatus now t s).description = t.description ∧
      (setStatus now t s).createdAt = t.createdAt ∧
      (setStatus now t s).status = s ∧
      (setStatus now t s).updatedAt = now) := by
  constructor
  · intro now t s h; simp [setStatus, h]
  · intro now t s h; simp [setStatus, h]

/-- C8 witness: concrete invalid and valid calls. -/
theorem setStatus_spec_witness :
    setStatus ['n'] ⟨1, ['d'], "todo".toList, ['c'], ['u']⟩ "bogus".toList =
      ⟨1, ['d'], "todo".toList, ['c'], ['u']⟩ ∧
    (setStatus ['n'] ⟨1, ['d'], "todo".toList, ['c'], ['u']⟩ "done".toList).status =
      "done".toList :=
  ⟨setStatus_spec.1 ['n'] ⟨1, ['d'], "todo".toList, ['c'], ['u']⟩ "bogus".toList
      (by decide),
   (setStatus_spec.2 ['n'] ⟨1, ['d'], "todo".toList, ['c'], ['u']⟩ "done".toList
      (by decide)).2.2.2.1⟩

/-! ### Mutating operations reject bad input without saving (C7) -/

/-- C7: each mutating operation, on an absent target id, an empty
description (add/update), or an invalid status keyword (mark), performs
no save (flag `false`) and returns the collection unchanged. -/
theorem mutations_no_save_on_failure :
    (∀ (now : List Char) (tasks : List Task), addTask now tasks [] = (tasks, false)) ∧
    (∀ (now : List Char) (tasks : List Task) (id : Int),
      updateTask now tasks id [] = (tasks, false)) ∧
    (∀ (now : List Char) (tasks : List Task) (id : Int) (nd : List Char),
      nd ≠ [] → (∀ t ∈ tasks, t.id ≠ id) →
      updateTask now tasks id nd = (tasks, false)) ∧
    (∀ (tasks : List Task) (id : Int), (∀ t ∈ tasks, t.id ≠ id) →
      deleteTask tasks id = (tasks, false)) ∧
    (∀ (now : List Char) (tasks : List Task) (id : Int) (st : List Char),
      isValidStatus st = false → markTaskStatus now tasks id st = (tasks, false)) ∧
    (∀ (now : List Char) (tasks : List Task) (id : Int) (st : List Char),
      (∀ t ∈ tasks, t.id ≠ id) → markTaskStatus now tasks id st = (tasks, false)) := by
  have hany : ∀ (tasks : List Task) (id : Int), (∀ t ∈ tasks, t.id ≠ id) →
      tasks.any (fun t => t.id = id) = false := by
    intro tasks id h
    simp only [List.any_eq_false, decide_eq_true_eq]
    exact h
  refine ⟨?_, ?_, ?_, ?_, ?_, ?_⟩
  · intro now tasks; simp [addTask]
  · intro now tasks id; simp [updateTask]
  · intro now tasks id nd hnd hmiss
    simp [updateTask, hnd, hany tasks id hmiss]
  · intro tasks id hmiss
    simp [deleteTask, hany tasks id hmiss]
  · intro now tasks id st hst
    simp [markTaskStatus, hst]
  · intro now tasks id st hmiss
    by_cases hst : isValidStatus st
    · simp [markTaskStatus, hst, hany tasks id hmiss]
    · simp [markTaskStatus, hst]

/-- C7 witness: concrete failing calls for each operation. -/
theorem mutations_no_save_on_failure_witness :
    addTask ['n'] [⟨1, ['d'], "todo".toList, ['c'], ['u']⟩] [] =
      ([⟨1, ['d'], "todo".toList, ['c'], ['u']⟩], false) ∧
    updateTask ['n'] [⟨1, ['d'], "todo".toList, ['c'], ['u']⟩] 7 ['x'] =
      ([⟨1, ['d'], "todo".toList, ['c'], ['u']⟩], false) ∧
    deleteTask [⟨1, ['d'], "todo".toList, ['c'], ['u']⟩] 7 =
      ([⟨1, ['d'], "todo".toList, ['c'], ['u']⟩], false) ∧
    markTaskStatus ['n'] [⟨1, ['d'], "todo".toList, ['c'], ['u']⟩] 1 "bogus".toList =
      ([⟨1, ['d'], "todo".toList, ['c'], ['u']⟩], false) :=
  ⟨mutations_no_save_on_failure.1 ['n'] _,
   mutations_no_save_on_failure.2.2.1 ['n'] _ 7 ['x'] (by decide) (by decide),
   mutations_no_save_on_failure.2.2.2.1 _ 7 (by decide),
   mutations_no_save_on_failure.2.2.2.2.1 ['n'] _ 1 "bogus".toList (by decide)⟩

end TaskCli
namespace TaskCli

/-! ### Basic facts about the string-search primitives -/

theorem charFindIn_eq_none (s : List Char) (c : Char) (h : c ∉ s) :
    charFindIn s c = none := by
  induction s with
  | nil => rfl
  | cons x xs ih =>
    have hx : ¬ x = c := fun he => h (he ▸ List.mem_cons_self x xs)
    simp only [charFindIn, if_neg hx]
    rw [ih (fun hm => h (List.mem_cons_of_mem x hm))]
    rfl

theorem charFindIn_append_not_mem (X Y : List Char) (c : Char) (h : c ∉ X) :
    charFindIn (X ++ Y) c = (charFindIn Y c).map (· + X.length) := by
  induction X with
  | nil =>
    cases hY : charFindIn Y c <;> simp [hY]
  | cons x xs ih =>
    have hx : ¬ x = c := fun he => h (he ▸ List.mem_cons_self x xs)
    simp only [List.cons_append, charFindIn, if_neg hx, List.append_eq]
    rw [ih (fun hm => h (List.mem_cons_of_mem x hm))]
    cases hY : charFindIn Y c <;> simp [Option.map_map] <;> omega

theorem charFindIn_cons_self (c : Char) (rest : List Char) :
    charFindIn (c :: rest) c = some 0 := by
  simp [charFindIn]

theorem subFind_nil (pat : List Char) (h : pat ≠ []) : subFind [] pat = none := by
  rw [subFind.eq_def]
  have hb : pat.isPrefixOf ([] : List Char) = false := by
    cases pat with
    | nil => exact absurd rfl h
    | cons p ps => rfl
  simp [hb]

theorem subFind_of_prefix (s pat : List Char) (h : pat <+: s) :
    subFind s pat = some 0 := by
  rw [subFind.eq_def]
  simp [ List.isPrefixOf_iff_prefix.mpr h]

theorem subFind_cons_of_not_prefix (c : Char) (s pat : List Char)
    (h : ¬ pat <+: (c :: s)) :
    subFind (c :: s) pat = (subFind s pat).map (· + 1) := by
  rw [subFind.eq_def]
  have hb : pat.isPrefixOf (c :: s) = false := by
    rw [← Bool.not_eq_true]
    intro hp
    exact h ( List.isPrefixOf_iff_prefix.mp hp)
  simp [hb]

/-- Any occurrence of a pattern that opens with a quote must start at a
quote; a quote-free chunk can therefore be skipped wholesale. -/
theorem subFind_append_quote (X Y k : List Char) (h : '"' ∉ X) :
    subFind (X ++ Y) ('"' :: k) = (subFind Y ('"' :: k)).map (· + X.length) := by
  induction X with
  | nil =>
    cases hY : subFind Y ('"' :: k) <;> simp [hY]
  | cons x xs ih =>
    have hx : ¬ x = '"' := fun he => h (he ▸ List.mem_cons_self x xs)
    have hnp : ¬ ('"' :: k) <+: (x :: (xs ++ Y)) := by
      intro hp
      exact hx ((List.cons_prefix_cons.mp hp).1.symm)
    rw [List.cons_append, subFind_cons_of_not_prefix _ _ _ hnp,
      ih (fun hm => h (List.mem_cons_of_mem x hm))]
    cases hY : subFind Y ('"' :: k) <;> simp [hY, Option.map_map] <;> omega

/-- A pattern whose head differs from the text's head is not a prefix. -/
theorem not_prefix_head_ne (x y : Char) (l m : List Char) (h : x ≠ y) :
    ¬ (x :: l) <+: (y :: m) := by
  intro hp
  exact h (List.cons_prefix_cons.mp hp).1

/-- A pattern whose second character differs from the text's second
character cannot be a prefix (both opening with the same first char). -/
theorem not_prefix_second_ne (x a b : Char) (l m : List Char) (h : a ≠ b) :
    ¬ (x :: a :: l) <+: (x :: b :: m) := by
  intro hp
  have h2 := (List.cons_prefix_cons.mp hp).2
  exact h (List.cons_prefix_cons.mp h2).1

/-- The tail `key":` of a key pattern cannot occur at the start of an
escaped value followed by its closing quote and a separator other than
`:`: every quote the escaper emits is immediately preceded by a
backslash, while a key name holds neither quotes nor backslashes. -/
theorem key_pattern_not_in_escaped :
    ∀ (v k : List Char) (d : Char) (rest : List Char),
      '"' ∉ k → '\\' ∉ k → d ≠ ':' →
      ¬ ((k ++ ['"', ':']) <+: (escapeJsonString v ++ ('"' :: d :: rest))) := by
  intro v
  induction v with
  | nil =>
    intro k d rest hk hbs hd hp
    rw [show escapeJsonString [] ++ ('"' :: d :: rest) = '"' :: d :: rest
      from rfl] at hp
    cases k with
    | nil =>
      simp only [List.nil_append] at hp
      have h1 := (List.cons_prefix_cons.mp hp).2
      exact hd ((List.cons_prefix_cons.mp h1).1).symm
    | cons b k2 =>
      simp only [List.cons_append] at hp
      have h1 := (List.cons_prefix_cons.mp hp).1
      exact hk (h1 ▸ List.mem_cons_self b k2)
  | cons c v2 ih =>
    intro k d rest hk hbs hd hp
    by_cases hc1 : c = '"'
    · subst hc1
      rw [show escapeJsonString ('"' :: v2) ++ ('"' :: d :: rest) =
        '\\' :: ('"' :: (escapeJsonString v2 ++ ('"' :: d :: rest)))
          from rfl] at hp
      cases k with
      | nil =>
        simp only [List.nil_append] at hp
        exact absurd (List.cons_prefix_cons.mp hp).1 (by decide)
      | cons b k2 =>
        simp only [List.cons_append] at hp
        have h1 := (List.cons_prefix_cons.mp hp).1
        exact hbs (h1 ▸ List.mem_cons_self b k2)
    · by_cases hc2 : c = '\\'
      · subst hc2
        rw [show escapeJsonString ('\\' :: v2) ++ ('"' :: d :: rest) =
          '\\' :: ('\\' :: (escapeJsonString v2 ++ ('"' :: d :: rest)))
            from rfl] at hp
        cases k with
        | nil =>
          simp only [List.nil_append] at hp
          exact absurd (List.cons_prefix_cons.mp hp).1 (by decide)
        | cons b k2 =>
          simp only [List.cons_append] at hp
          have h1 := (List.cons_prefix_cons.mp hp).1
          exact hbs (h1 ▸ List.mem_cons_self b k2)
      · have he : escChar c = [c] := by simp [escChar, hc1, hc2]
        rw [show escapeJsonString (c :: v2) = escChar c ++ escapeJsonString v2
          from rfl, he] at hp
        simp only [List.cons_append, List.nil_append, List.append_assoc] at hp
        cases k with
        | nil =>
          simp only [List.nil_append] at hp
          exact hc1 ((List.cons_prefix_cons.mp hp).1).symm
        | cons b k2 =>
          obtain ⟨hb, h3⟩ := List.cons_prefix_cons.mp hp
          exact ih k2 d rest (fun hm => hk (List.mem_cons_of_mem b hm))
            (fun hm => hbs (List.mem_cons_of_mem b hm)) hd h3

/-- The first occurrence of a key pattern in an escaped value followed
by its closing quote and a separator lies past the escaped text: the
pattern cannot start at any backslash-guarded quote inside it. -/
theorem subFind_skip_escaped :
    ∀ (v k2 : List Char) (a d : Char) (rest : List Char),
      '"' ∉ a :: k2 → '\\' ∉ a :: k2 → d ≠ ':' → a ≠ d →
      subFind (escapeJsonString v ++ ('"' :: d :: rest))
          ('"' :: ((a :: k2) ++ ['"', ':'])) =
        (subFind (d :: rest) ('"' :: ((a :: k2) ++ ['"', ':']))).map
          (· + ((escapeJsonString v).length + 1)) := by
  intro v
  induction v with
  | nil =>
    intro k2 a d rest hk hbs hd had
    rw [show escapeJsonString [] ++ ('"' :: d :: rest) = '"' :: d :: rest
      from rfl]
    rw [ subFind_cons_of_not_prefix '"' (d :: rest)
      ('"' :: ((a :: k2) ++ ['"', ':']))
      (not_prefix_second_ne '"' a d _ _ had)]
    cases hz : subFind (d :: rest) ('"' :: ((a :: k2) ++ ['"', ':'])) <;>
      simp [hz, escapeJsonString]
  | cons c v2 ih =>
    intro k2 a d rest hk hbs hd had
    by_cases hc1 : c = '"'
    · subst hc1
      rw [show escapeJsonString ('"' :: v2) ++ ('"' :: d :: rest) =
        '\\' :: ('"' :: (escapeJsonString v2 ++ ('"' :: d :: rest))) from rfl]
      rw [ subFind_cons_of_not_prefix _ _ _
        (not_prefix_head_ne '"' '\\' _ _ (by decide))]
      rw [ subFind_cons_of_not_prefix _ _ _ (fun hp =>
        key_pattern_not_in_escaped v2 (a :: k2) d rest hk hbs hd
          (List.cons_prefix_cons.mp hp).2)]
      rw [ih k2 a d rest hk hbs hd had]
      have hlen : (escapeJsonString ('"' :: v2)).length =
          (escapeJsonString v2).length + 2 := by
        rw [show escapeJsonString ('"' :: v2) =
          '\\' :: ('"' :: escapeJsonString v2) from rfl]
        simp
      cases hz : subFind (d :: rest) ('"' :: ((a :: k2) ++ ['"', ':'])) <;>
        simp [hz, Option.map_map, hlen] <;> omega
    · by_cases hc2 : c = '\\'
      · subst hc2
        rw [show escapeJsonString ('\\' :: v2) ++ ('"' :: d :: rest) =
          '\\' :: ('\\' :: (escapeJsonString v2 ++ ('"' :: d :: rest))) from rfl]
        rw [ subFind_cons_of_not_prefix _ _ _
          (not_prefix_head_ne '"' '\\' _ _ (by decide))]
        rw [ subFind_cons_of_not_prefix _ _ _
          (not_prefix_head_ne '"' '\\' _ _ (by decide))]
        rw [ih k2 a d rest hk hbs hd had]
        have hlen : (escapeJsonString ('\\' :: v2)).length =
            (escapeJsonString v2).length + 2 := by
          rw [show escapeJsonString ('\\' :: v2) =
            '\\' :: ('\\' :: escapeJsonString v2) from rfl]
          simp
        cases hz : subFind (d :: rest) ('"' :: ((a :: k2) ++ ['"', ':'])) <;>
          simp [hz, Option.map_map, hlen] <;> omega
      · have he : escChar c = [c] := by simp [escChar, hc1, hc2]
        have heq : escapeJsonString (c :: v2) ++ ('"' :: d :: rest) =
            c :: (escapeJsonString v2 ++ ('"' :: d :: rest)) := by
          rw [show escapeJsonString (c :: v2) = escChar c ++ escapeJsonString v2
            from rfl, he]
          simp
        rw [heq]
        rw [ subFind_cons_of_not_prefix _ _ _
          (not_prefix_head_ne '"' c _ _ (fun hq => hc1 hq.symm))]
        rw [ih k2 a d rest hk hbs hd had]
        have hlen : (escapeJsonString (c :: v2)).length =
            (escapeJsonString v2).length + 1 := by
          rw [show escapeJsonString (c :: v2) = escChar c ++ escapeJsonString v2
            from rfl, he]
          simp
        cases hz : subFind (d :: rest) ('"' :: ((a :: k2) ++ ['"', ':'])) <;>
          simp [hz, Option.map_map, hlen] <;> omega

/-- Passing a whole rendered value `"…"` up to the following separator:
the key pattern matches neither at the value's opening quote, nor
inside the escaped text, nor at the closing quote. -/
theorem subFind_pass_value (v k2 : List Char) (a d : Char) (rest : List Char)
    (hk : '"' ∉ a :: k2) (hbs : '\\' ∉ a :: k2) (hd : d ≠ ':') (had : a ≠ d) :
    subFind ('"' :: (escapeJsonString v ++ ('"' :: (d :: rest))))
        ('"' :: ((a :: k2) ++ ['"', ':'])) =
      (subFind (d :: rest) ('"' :: ((a :: k2) ++ ['"', ':']))).map
        (· + ((escapeJsonString v).length + 2)) := by
  rw [ subFind_cons_of_not_prefix _ _ _ (fun hp =>
    key_pattern_not_in_escaped v (a :: k2) d rest hk hbs hd
      (List.cons_prefix_cons.mp hp).2)]
  rw [subFind_skip_escaped v k2 a d rest hk hbs hd had]
  cases hz : subFind (d :: rest) ('"' :: ((a :: k2) ++ ['"', ':'])) <;>
    simp [hz, Option.map_map] <;> omega

end TaskCli
namespace TaskCli

/-! ### Scanning an escaped string value -/

theorem strScan_cons_false (c : Char) (rest : List Char) :
    strScan (c :: rest) false =
      if c = '\\' then (strScan rest true).map (· + 1)
      else if c = '"' then some 0
      else (strScan rest false).map (· + 1) := rfl

theorem strScan_cons_true (c : Char) (rest : List Char) :
    strScan (c :: rest) true = (strScan rest false).map (· + 1) := rfl

theorem mem_escChar (c a : Char) (h : a ∈ escChar c) : a = c ∨ a = '\\' := by
  by_cases h1 : c = '"'
  · subst h1
    simp [escChar] at h
    rcases h with h | h
    · exact Or.inr h
    · exact Or.inl h
  · by_cases h2 : c = '\\'
    · subst h2
      simp [escChar] at h
      exact Or.inr h
    · simp [escChar, h1, h2] at h
      exact Or.inl h

theorem mem_escape (v : List Char) (a : Char) (h : a ∈ escapeJsonString v) :
    a ∈ v ∨ a = '\\' := by
  induction v with
  | nil => cases h
  | cons c cs ih =>
    simp only [escapeJsonString] at h
    rcases List.mem_append.mp h with h1 | h1
    · rcases mem_escChar c a h1 with h2 | h2
      · exact Or.inl (h2 ▸ List.mem_cons_self c cs)
      · exact Or.inr h2
    · rcases ih h1 with h2 | h2
      · exact Or.inl (List.mem_cons_of_mem c h2)
      · exact Or.inr h2

/-- The string scanner runs over a whole escaped value and stops exactly
at the quote closing it: escaped quotes and backslashes are consumed in
pairs, so they never terminate the scan early. -/
theorem strScan_escape (v rest : List Char) :
    strScan (escapeJsonString v ++ '"' :: rest) false =
      some (escapeJsonString v).length := by
  induction v with
  | nil =>
    show strScan ('"' :: rest) false = some (List.length [])
    rw [strScan_cons_false, if_neg (show ¬ ('"' = '\\') by decide), if_pos rfl]
    rfl
  | cons c cs ih =>
    by_cases h1 : c = '"'
    · subst h1
      have he : escChar '"' = ['\\', '"'] := rfl
      simp only [escapeJsonString, he, List.cons_append, List.nil_append,
        List.append_assoc]
      rw [strScan_cons_false, if_pos rfl, strScan_cons_true, ih]
      simp [escapeJsonString, he]
    · by_cases h2 : c = '\\'
      · subst h2
        have he : escChar '\\' = ['\\', '\\'] := rfl
        simp only [escapeJsonString, he, List.cons_append, List.nil_append,
          List.append_assoc]
        rw [strScan_cons_false, if_pos rfl, strScan_cons_true, ih]
        simp [escapeJsonString, he]
      · have he : escChar c = [c] := by simp [escChar, h1, h2]
        simp only [escapeJsonString, he, List.cons_append, List.nil_append,
          List.append_assoc]
        rw [strScan_cons_false, if_neg h2, if_neg h1, ih]
        simp [escapeJsonString, he]

/-! ### skipWs and trimming -/

theorem skipWs_of_not_space (s : List Char) (i : Nat) (c : Char) (X : List Char)
    (hdrop : s.drop i = c :: X) (hc : isSpaceC c = false) : skipWs s i = i := by
  rw [skipWs, hdrop, List.takeWhile_cons_of_neg (by simp [hc])]
  rfl

theorem skipWs_one_space (s : List Char) (i : Nat) (c : Char) (X : List Char)
    (hdrop : s.drop i = ' ' :: c :: X) (hc : isSpaceC c = false) :
    skipWs s i = i + 1 := by
  rw [skipWs, hdrop, List.takeWhile_cons_of_pos (by decide),
    List.takeWhile_cons_of_neg (by simp [hc])]
  rfl

theorem trimTrailingWs_of_no_ws (s : List Char) (h : ∀ c ∈ s, isSpaceC c = false) :
    trimTrailingWs s = s := by
  rw [trimTrailingWs]
  have hd : s.reverse.dropWhile isSpaceC = s.reverse := by
    cases hr : s.reverse with
    | nil => rfl
    | cons c cs =>
      rw [List.dropWhile_cons_of_neg]
      have hc : c ∈ s := by
        have hm : c ∈ s.reverse := hr ▸ List.mem_cons_self c cs
        exact List.mem_reverse.mp hm
      simp [h c hc]
  rw [hd, List.reverse_reverse]

/-! ### Decimal digits -/

theorem digitChar_toNat : ∀ d : Nat, d < 10 → (Nat.digitChar d).toNat = 48 + d := by
  decide

theorem digitChar_props : ∀ d : Nat, d < 10 →
    (Nat.digitChar d).isDigit = true ∧ Nat.digitChar d ≠ '-' ∧
    Nat.digitChar d ≠ '"' ∧ Nat.digitChar d ≠ '\x7b' ∧ Nat.digitChar d ≠ '\x7d' ∧
    Nat.digitChar d ≠ ',' ∧ Nat.digitChar d ≠ '\\' ∧
    isSpaceC (Nat.digitChar d) = false ∧ Nat.digitChar d ≠ ':' := by
  decide

theorem natToDigitsAux_append (fuel : Nat) :
    ∀ (n : Nat) (acc : List Char),
      natToDigitsAux fuel n acc = natToDigitsAux fuel n [] ++ acc := by
  induction fuel with
  | zero => intro n acc; rfl
  | succ f ih =>
    intro n acc
    by_cases h : n < 10
    · simp [natToDigitsAux, h]
    · simp only [natToDigitsAux, if_neg h]
      rw [ih (n / 10) (Nat.digitChar (n % 10) :: acc),
        ih (n / 10) [Nat.digitChar (n % 10)]]
      simp

theorem natToDigitsAux_fuel (f1 : Nat) :
    ∀ (f2 n : Nat), n < f1 → n < f2 →
      natToDigitsAux f1 n [] = natToDigitsAux f2 n [] := by
  induction f1 with
  | zero => intro f2 n h1; omega
  | succ g ih =>
    intro f2 n h1 h2
    cases f2 with
    | zero => omega
    | succ g2 =>
      by_cases h : n < 10
      · simp [natToDigitsAux, h]
      · simp only [natToDigitsAux, if_neg h]
        rw [natToDigitsAux_append g, natToDigitsAux_append g2]
        have hdiv : n / 10 < n := Nat.div_lt_self (by omega) (by omega)
        rw [ih g2 (n / 10) (by omega) (by omega)]

theorem natToDigits_step (n : Nat) (h : ¬ n < 10) :
    natToDigits n = natToDigits (n / 10) ++ [Nat.digitChar (n % 10)] := by
  rw [natToDigits, natToDigits]
  show natToDigitsAux (n + 1) n [] = _
  rw [natToDigitsAux]
  simp only [if_neg h]
  rw [natToDigitsAux_append n]
  have hdiv : n / 10 < n := Nat.div_lt_self (by omega) (by omega)
  rw [natToDigitsAux_fuel n (n / 10 + 1) (n / 10) (by omega) (by omega)]

theorem natToDigits_small (n : Nat) (h : n < 10) :
    natToDigits n = [Nat.digitChar n] := by
  rw [natToDigits]
  show natToDigitsAux (n + 1) n [] = _
  rw [natToDigitsAux]
  simp only [if_pos h]
  rw [Nat.mod_eq_of_lt h]

theorem natToDigits_mem (n : Nat) :
    ∀ c ∈ natToDigits n, ∃ d : Nat, d < 10 ∧ c = Nat.digitChar d := by
  induction n using Nat.strong_induction_on with
  | _ n ih =>
    by_cases h : n < 10
    · rw [natToDigits_small n h]
      intro c hc
      simp at hc
      exact ⟨n, h, hc⟩
    · rw [natToDigits_step n h]
      intro c hc
      rcases List.mem_append.mp hc with h1 | h1
      · exact ih (n / 10) (Nat.div_lt_self (by omega) (by omega)) c h1
      · simp at h1
        exact ⟨n % 10, Nat.mod_lt n (by omega), h1⟩

theorem natToDigits_ne_nil (n : Nat) : natToDigits n ≠ [] := by
  by_cases h : n < 10
  · rw [natToDigits_small n h]; simp
  · rw [natToDigits_step n h]; simp

theorem natOfDigits_append_one (xs : List Char) (c : Char) :
    natOfDigits (xs ++ [c]) = natOfDigits xs * 10 + (c.toNat - 48) := by
  rw [natOfDigits, List.foldl_append]
  rfl

theorem natOfDigits_natToDigits (n : Nat) :
    natOfDigits (natToDigits n) = n := by
  induction n using Nat.strong_induction_on with
  | _ n ih =>
    by_cases h : n < 10
    · rw [natToDigits_small n h]
      show natOfDigits ([] ++ [Nat.digitChar n]) = n
      rw [natOfDigits_append_one]
      rw [digitChar_toNat n h]
      show 0 * 10 + (48 + n - 48) = n
      omega
    · rw [natToDigits_step n h, natOfDigits_append_one,
        ih (n / 10) (Nat.div_lt_self (by omega) (by omega)),
        digitChar_toNat (n % 10) (Nat.mod_lt n (by omega))]
      omega

end TaskCli
namespace TaskCli

/-! ### The five key lookups on an encoded task body -/

/-- The text of an encoded task body from the `updatedAt` key's opening
quote onward. -/
def fromU (eU : List Char) : List Char :=
  '"' :: ("updatedAt".toList ++ ('"' :: ':' :: ' ' :: '"' :: (eU ++ "\"\n  ".toList)))

/-- The text from the `createdAt` key's opening quote onward. -/
def fromC (eC eU : List Char) : List Char :=
  '"' :: ("createdAt".toList ++ ('"' :: ':' :: ' ' :: '"' ::
    (eC ++ ('"' :: (",\n    ".toList ++ fromU eU)))))

/-- The text from the `status` key's opening quote onward. -/
def fromS (eS eC eU : List Char) : List Char :=
  '"' :: ("status".toList ++ ('"' :: ':' :: ' ' :: '"' ::
    (eS ++ ('"' :: (",\n    ".toList ++ fromC eC eU)))))

/-- The text from the `description` key's opening quote onward. -/
def fromD (eD eS eC eU : List Char) : List Char :=
  '"' :: ("description".toList ++ ('"' :: ':' :: ' ' :: '"' ::
    (eD ++ ('"' :: (",\n    ".toList ++ fromS eS eC eU)))))

/-- The body of an encoded task block, parametrised by the already
rendered id digits and escaped string fields. -/
def bodyOf (num eD eS eC eU : List Char) : List Char :=
  "\n    \"id\": ".toList ++ (num ++ (",\n    ".toList ++ fromD eD eS eC eU))

theorem taskBody_eq_bodyOf (t : Task) :
    taskBody t = bodyOf (intToChars t.id) (escapeJsonString t.description)
      (escapeJsonString t.status) (escapeJsonString t.createdAt)
      (escapeJsonString t.updatedAt) := rfl

/-- Skip a quote-free run followed by a quote the pattern cannot match
at. -/
theorem subFind_skip_seg (A patTail T : List Char)
    (hA : '"' ∉ A) (hnp : ¬ ('"' :: patTail) <+: ('"' :: T)) :
    subFind (A ++ ('"' :: T)) ('"' :: patTail) =
      (subFind T ('"' :: patTail)).map (· + (A.length + 1)) := by
  rw [subFind_append_quote _ _ _ hA, subFind_cons_of_not_prefix _ _ _ hnp]
  cases hT : subFind T ('"' :: patTail) <;> simp [Option.map_map] <;> omega

/-- Arrive: a quote-free run followed by the key token itself. -/
theorem subFind_arrive (A patTail T : List Char)
    (hA : '"' ∉ A) (hp : ('"' :: patTail) <+: ('"' :: T)) :
    subFind (A ++ ('"' :: T)) ('"' :: patTail) = some A.length := by
  rw [subFind_append_quote _ _ _ hA, subFind_of_prefix _ _ hp]
  simp

/-- Walk over the leading `"id": <num>,␠...` part of a body, for a key
pattern that matches neither the id key nor anything before the
description key's opening quote. -/
theorem subFind_body_to_fromD (num eD eS eC eU k' : List Char) (a : Char)
    (hnum : '"' ∉ num) (ha1 : a ≠ 'i') (ha2 : a ≠ ':') :
    subFind (bodyOf num eD eS eC eU) ('"' :: ((a :: k') ++ ['"', ':'])) =
      (subFind (",\n    ".toList ++ fromD eD eS eC eU)
        ('"' :: ((a :: k') ++ ['"', ':']))).map (· + (num.length + 11)) := by
  have h1 : subFind (bodyOf num eD eS eC eU) ('"' :: ((a :: k') ++ ['"', ':'])) =
      (subFind ("id".toList ++ ('"' :: (':' :: (' ' ::
          (num ++ (",\n    ".toList ++ fromD eD eS eC eU))))))
        ('"' :: ((a :: k') ++ ['"', ':']))).map (· + 6) :=
    subFind_skip_seg "\n    ".toList _ _ (by decide)
      (not_prefix_second_ne '"' a 'i' _ _ ha1)
  have h2 : subFind ("id".toList ++ ('"' :: (':' :: (' ' ::
          (num ++ (",\n    ".toList ++ fromD eD eS eC eU))))))
        ('"' :: ((a :: k') ++ ['"', ':'])) =
      (subFind (':' :: (' ' :: (num ++ (",\n    ".toList ++ fromD eD eS eC eU))))
        ('"' :: ((a :: k') ++ ['"', ':']))).map (· + 3) :=
    subFind_skip_seg "id".toList _ _ (by decide)
      (not_prefix_second_ne '"' a ':' _ _ ha2)
  have h3 : subFind (':' :: (' ' :: (num ++ (",\n    ".toList ++ fromD eD eS eC eU))))
        ('"' :: ((a :: k') ++ ['"', ':'])) =
      (subFind (",\n    ".toList ++ fromD eD eS eC eU)
        ('"' :: ((a :: k') ++ ['"', ':']))).map (· + (num.length + 2)) := by
    have h := subFind_append_quote (':' :: ' ' :: num)
      (",\n    ".toList ++ fromD eD eS eC eU) ((a :: k') ++ ['"', ':'])
      (by simp [hnum])
    rw [show (':' :: ' ' :: num).length = num.length + 2 by simp] at h
    exact h
  rw [h1, h2, h3]
  cases hZ : subFind (",\n    ".toList ++ fromD eD eS eC eU)
      ('"' :: ((a :: k') ++ ['"', ':'])) <;> simp [Option.map_map] <;> omega

/-- Walk over a whole rendered string field `"description": "…",␠` for a
pattern that cannot match anywhere inside it; the description itself may
contain quotes, which the escaper guards with backslashes. -/
theorem subFind_pass_fromD (D eS eC eU k' : List Char) (a : Char)
    (hk : '"' ∉ a :: k') (hbs : '\\' ∉ a :: k')
    (ha1 : a ≠ 'd') (ha2 : a ≠ ':') (ha3 : a ≠ ',') :
    subFind (",\n    ".toList ++ fromD (escapeJsonString D) eS eC eU)
        ('"' :: ((a :: k') ++ ['"', ':'])) =
      (subFind (",\n    ".toList ++ fromS eS eC eU)
        ('"' :: ((a :: k') ++ ['"', ':']))).map
          (· + ((escapeJsonString D).length + 23)) := by
  have h1 : subFind (",\n    ".toList ++ fromD (escapeJsonString D) eS eC eU)
        ('"' :: ((a :: k') ++ ['"', ':'])) =
      (subFind ("description".toList ++ ('"' :: (':' :: (' ' :: ('"' ::
          (escapeJsonString D ++
            ('"' :: (",\n    ".toList ++ fromS eS eC eU))))))))
        ('"' :: ((a :: k') ++ ['"', ':']))).map (· + 7) :=
    subFind_skip_seg ",\n    ".toList _ _ (by decide)
      (not_prefix_second_ne '"' a 'd' _ _ ha1)
  have h2 : subFind ("description".toList ++ ('"' :: (':' :: (' ' :: ('"' ::
          (escapeJsonString D ++
            ('"' :: (",\n    ".toList ++ fromS eS eC eU))))))))
        ('"' :: ((a :: k') ++ ['"', ':'])) =
      (subFind (':' :: (' ' :: ('"' ::
          (escapeJsonString D ++
            ('"' :: (",\n    ".toList ++ fromS eS eC eU))))))
        ('"' :: ((a :: k') ++ ['"', ':']))).map (· + 12) :=
    subFind_skip_seg "description".toList _ _ (by decide)
      (not_prefix_second_ne '"' a ':' _ _ ha2)
  have h3 : subFind (':' :: (' ' :: ('"' ::
          (escapeJsonString D ++
            ('"' :: (",\n    ".toList ++ fromS eS eC eU))))))
        ('"' :: ((a :: k') ++ ['"', ':'])) =
      (subFind ('"' :: (escapeJsonString D ++
          ('"' :: (",\n    ".toList ++ fromS eS eC eU))))
        ('"' :: ((a :: k') ++ ['"', ':']))).map (· + 2) := by
    have h := subFind_append_quote [':', ' ']
      ('"' :: (escapeJsonString D ++ ('"' :: (",\n    ".toList ++ fromS eS eC eU))))
      ((a :: k') ++ ['"', ':']) (by decide)
    rw [show ([':', ' '] : List Char).length = 2 from rfl] at h
    exact h
  have h4 : subFind ('"' :: (escapeJsonString D ++
        ('"' :: (",\n    ".toList ++ fromS eS eC eU))))
        ('"' :: ((a :: k') ++ ['"', ':'])) =
      (subFind (",\n    ".toList ++ fromS eS eC eU)
        ('"' :: ((a :: k') ++ ['"', ':']))).map
          (· + ((escapeJsonString D).length + 2)) :=
    subFind_pass_value D k' a ','
      ('\n' :: (' ' :: (' ' :: (' ' :: (' ' :: fromS eS eC eU)))))
      hk hbs (by decide) ha3
  rw [h1, h2, h3, h4]
  cases hZ : subFind (",\n    ".toList ++ fromS eS eC eU)
      ('"' :: ((a :: k') ++ ['"', ':'])) <;> simp [Option.map_map] <;> omega

theorem subFind_pass_fromS (S eC eU k' : List Char) (a : Char)
    (hk : '"' ∉ a :: k') (hbs : '\\' ∉ a :: k')
    (ha1 : a ≠ 's') (ha2 : a ≠ ':') (ha3 : a ≠ ',') :
    subFind (",\n    ".toList ++ fromS (escapeJsonString S) eC eU)
        ('"' :: ((a :: k') ++ ['"', ':'])) =
      (subFind (",\n    ".toList ++ fromC eC eU)
        ('"' :: ((a :: k') ++ ['"', ':']))).map
          (· + ((escapeJsonString S).length + 18)) := by
  have h1 : subFind (",\n    ".toList ++ fromS (escapeJsonString S) eC eU)
        ('"' :: ((a :: k') ++ ['"', ':'])) =
      (subFind ("status".toList ++ ('"' :: (':' :: (' ' :: ('"' ::
          (escapeJsonString S ++
            ('"' :: (",\n    ".toList ++ fromC eC eU))))))))
        ('"' :: ((a :: k') ++ ['"', ':']))).map (· + 7) :=
    subFind_skip_seg ",\n    ".toList _ _ (by decide)
      (not_prefix_second_ne '"' a 's' _ _ ha1)
  have h2 : subFind ("status".toList ++ ('"' :: (':' :: (' ' :: ('"' ::
          (escapeJsonString S ++
            ('"' :: (",\n    ".toList ++ fromC eC eU))))))))
        ('"' :: ((a :: k') ++ ['"', ':'])) =
      (subFind (':' :: (' ' :: ('"' ::
          (escapeJsonString S ++
            ('"' :: (",\n    ".toList ++ fromC eC eU))))))
        ('"' :: ((a :: k') ++ ['"', ':']))).map (· + 7) :=
    subFind_skip_seg "status".toList _ _ (by decide)
      (not_prefix_second_ne '"' a ':' _ _ ha2)
  have h3 : subFind (':' :: (' ' :: ('"' ::
          (escapeJsonString S ++
            ('"' :: (",\n    ".toList ++ fromC eC eU))))))
        ('"' :: ((a :: k') ++ ['"', ':'])) =
      (subFind ('"' :: (escapeJsonString S ++
          ('"' :: (",\n    ".toList ++ fromC eC eU))))
        ('"' :: ((a :: k') ++ ['"', ':']))).map (· + 2) := by
    have h := subFind_append_quote [':', ' ']
      ('"' :: (escapeJsonString S ++ ('"' :: (",\n    ".toList ++ fromC eC eU))))
      ((a :: k') ++ ['"', ':']) (by decide)
    rw [show ([':', ' '] : List Char).length = 2 from rfl] at h
    exact h
  have h4 : subFind ('"' :: (escapeJsonString S ++
        ('"' :: (",\n    ".toList ++ fromC eC eU))))
        ('"' :: ((a :: k') ++ ['"', ':'])) =
      (subFind (",\n    ".toList ++ fromC eC eU)
        ('"' :: ((a :: k') ++ ['"', ':']))).map
          (· + ((escapeJsonString S).length + 2)) :=
    subFind_pass_value S k' a ','
      ('\n' :: (' ' :: (' ' :: (' ' :: (' ' :: fromC eC eU)))))
      hk hbs (by decide) ha3
  rw [h1, h2, h3, h4]
  cases hZ : subFind (",\n    ".toList ++ fromC eC eU)
      ('"' :: ((a :: k') ++ ['"', ':'])) <;> simp [Option.map_map] <;> omega

theorem subFind_pass_fromC (C eU k' : List Char) (a : Char)
    (hk : '"' ∉ a :: k') (hbs : '\\' ∉ a :: k')
    (ha1 : a ≠ 'c') (ha2 : a ≠ ':') (ha3 : a ≠ ',') :
    subFind (",\n    ".toList ++ fromC (escapeJsonString C) eU)
        ('"' :: ((a :: k') ++ ['"', ':'])) =
      (subFind (",\n    ".toList ++ fromU eU)
        ('"' :: ((a :: k') ++ ['"', ':']))).map
          (· + ((escapeJsonString C).length + 21)) := by
  have h1 : subFind (",\n    ".toList ++ fromC (escapeJsonString C) eU)
        ('"' :: ((a :: k') ++ ['"', ':'])) =
      (subFind ("createdAt".toList ++ ('"' :: (':' :: (' ' :: ('"' ::
          (escapeJsonString C ++
            ('"' :: (",\n    ".toList ++ fromU eU))))))))
        ('"' :: ((a :: k') ++ ['"', ':']))).map (· + 7) :=
    subFind_skip_seg ",\n    ".toList _ _ (by decide)
      (not_prefix_second_ne '"' a 'c' _ _ ha1)
  have h2 : subFind ("createdAt".toList ++ ('"' :: (':' :: (' ' :: ('"' ::
          (escapeJsonString C ++
            ('"' :: (",\n    ".toList ++ fromU eU))))))))
        ('"' :: ((a :: k') ++ ['"', ':'])) =
      (subFind (':' :: (' ' :: ('"' ::
          (escapeJsonString C ++
            ('"' :: (",\n    ".toList ++ fromU eU))))))
        ('"' :: ((a :: k') ++ ['"', ':']))).map (· + 10) :=
    subFind_skip_seg "createdAt".toList _ _ (by decide)
      (not_prefix_second_ne '"' a ':' _ _ ha2)
  have h3 : subFind (':' :: (' ' :: ('"' ::
          (escapeJsonString C ++
            ('"' :: (",\n    ".toList ++ fromU eU))))))
        ('"' :: ((a :: k') ++ ['"', ':'])) =
      (subFind ('"' :: (escapeJsonString C ++
          ('"' :: (",\n    ".toList ++ fromU eU))))
        ('"' :: ((a :: k') ++ ['"', ':']))).map (· + 2) := by
    have h := subFind_append_quote [':', ' ']
      ('"' :: (escapeJsonString C ++ ('"' :: (",\n    ".toList ++ fromU eU))))
      ((a :: k') ++ ['"', ':']) (by decide)
    rw [show ([':', ' '] : List Char).length = 2 from rfl] at h
    exact h
  have h4 : subFind ('"' :: (escapeJsonString C ++
        ('"' :: (",\n    ".toList ++ fromU eU))))
        ('"' :: ((a :: k') ++ ['"', ':'])) =
      (subFind (",\n    ".toList ++ fromU eU)
        ('"' :: ((a :: k') ++ ['"', ':']))).map
          (· + ((escapeJsonString C).length + 2)) :=
    subFind_pass_value C k' a ','
      ('\n' :: (' ' :: (' ' :: (' ' :: (' ' :: fromU eU)))))
      hk hbs (by decide) ha3
  rw [h1, h2, h3, h4]
  cases hZ : subFind (",\n    ".toList ++ fromU eU)
      ('"' :: ((a :: k') ++ ['"', ':'])) <;> simp [Option.map_map] <;> omega

end TaskCli
namespace TaskCli

theorem subFind_body_id (num eD eS eC eU : List Char) :
    subFind (bodyOf num eD eS eC eU) ('"' :: ("id".toList ++ ['"', ':'])) =
      some 5 :=
  subFind_arrive "\n    ".toList _ _ (by decide) ⟨_, rfl⟩

theorem subFind_body_desc (num eD eS eC eU : List Char) (hnum : '"' ∉ num) :
    subFind (bodyOf num eD eS eC eU)
      ('"' :: ("description".toList ++ ['"', ':'])) = some (num.length + 17) := by
  have h0 : subFind (bodyOf num eD eS eC eU)
      ('"' :: (('d' :: "escription".toList) ++ ['"', ':'])) =
      (subFind (",\n    ".toList ++ fromD eD eS eC eU)
        ('"' :: (('d' :: "escription".toList) ++ ['"', ':']))).map
          (· + (num.length + 11)) :=
    subFind_body_to_fromD num eD eS eC eU _ 'd' hnum (by decide) (by decide)
  have h1 : subFind (",\n    ".toList ++ fromD eD eS eC eU)
      ('"' :: (('d' :: "escription".toList) ++ ['"', ':'])) = some 6 :=
    subFind_arrive ",\n    ".toList _ _ (by decide) ⟨_, rfl⟩
  rw [h1] at h0
  rw [show ('"' :: ("description".toList ++ ['"', ':'])) =
    ('"' :: (('d' :: "escription".toList) ++ ['"', ':'])) from rfl, h0]
  simp
  omega

theorem subFind_body_status (num D eS eC eU : List Char)
    (hnum : '"' ∉ num) :
    subFind (bodyOf num (escapeJsonString D) eS eC eU)
      ('"' :: ("status".toList ++ ['"', ':'])) =
        some (num.length + (escapeJsonString D).length + 40) := by
  have h0 : subFind (bodyOf num (escapeJsonString D) eS eC eU)
      ('"' :: (('s' :: "tatus".toList) ++ ['"', ':'])) =
      (subFind (",\n    ".toList ++ fromD (escapeJsonString D) eS eC eU)
        ('"' :: (('s' :: "tatus".toList) ++ ['"', ':']))).map
          (· + (num.length + 11)) :=
    subFind_body_to_fromD num (escapeJsonString D) eS eC eU _ 's' hnum
      (by decide) (by decide)
  have h1 : subFind (",\n    ".toList ++ fromD (escapeJsonString D) eS eC eU)
      ('"' :: (('s' :: "tatus".toList) ++ ['"', ':'])) =
      (subFind (",\n    ".toList ++ fromS eS eC eU)
        ('"' :: (('s' :: "tatus".toList) ++ ['"', ':']))).map
          (· + ((escapeJsonString D).length + 23)) :=
    subFind_pass_fromD D eS eC eU _ 's' (by decide) (by decide)
      (by decide) (by decide) (by decide)
  have h2 : subFind (",\n    ".toList ++ fromS eS eC eU)
      ('"' :: (('s' :: "tatus".toList) ++ ['"', ':'])) = some 6 :=
    subFind_arrive ",\n    ".toList _ _ (by decide) ⟨_, rfl⟩
  rw [h2] at h1
  rw [h1] at h0
  rw [show ('"' :: ("status".toList ++ ['"', ':'])) =
    ('"' :: (('s' :: "tatus".toList) ++ ['"', ':'])) from rfl, h0]
  simp
  omega

theorem subFind_body_createdAt (num D S eC eU : List Char)
    (hnum : '"' ∉ num) :
    subFind (bodyOf num (escapeJsonString D) (escapeJsonString S) eC eU)
      ('"' :: ("createdAt".toList ++ ['"', ':'])) =
        some (num.length + (escapeJsonString D).length +
          (escapeJsonString S).length + 58) := by
  have h0 : subFind (bodyOf num (escapeJsonString D) (escapeJsonString S) eC eU)
      ('"' :: (('c' :: "reatedAt".toList) ++ ['"', ':'])) =
      (subFind (",\n    ".toList ++
          fromD (escapeJsonString D) (escapeJsonString S) eC eU)
        ('"' :: (('c' :: "reatedAt".toList) ++ ['"', ':']))).map
          (· + (num.length + 11)) :=
    subFind_body_to_fromD num (escapeJsonString D) (escapeJsonString S) eC eU
      _ 'c' hnum (by decide) (by decide)
  have h1 : subFind (",\n    ".toList ++
        fromD (escapeJsonString D) (escapeJsonString S) eC eU)
      ('"' :: (('c' :: "reatedAt".toList) ++ ['"', ':'])) =
      (subFind (",\n    ".toList ++ fromS (escapeJsonString S) eC eU)
        ('"' :: (('c' :: "reatedAt".toList) ++ ['"', ':']))).map
          (· + ((escapeJsonString D).length + 23)) :=
    subFind_pass_fromD D (escapeJsonString S) eC eU _ 'c' (by decide)
      (by decide) (by decide) (by decide) (by decide)
  have h2 : subFind (",\n    ".toList ++ fromS (escapeJsonString S) eC eU)
      ('"' :: (('c' :: "reatedAt".toList) ++ ['"', ':'])) =
      (subFind (",\n    ".toList ++ fromC eC eU)
        ('"' :: (('c' :: "reatedAt".toList) ++ ['"', ':']))).map
          (· + ((escapeJsonString S).length + 18)) :=
    subFind_pass_fromS S eC eU _ 'c' (by decide) (by decide)
      (by decide) (by decide) (by decide)
  have h3 : subFind (",\n    ".toList ++ fromC eC eU)
      ('"' :: (('c' :: "reatedAt".toList) ++ ['"', ':'])) = some 6 :=
    subFind_arrive ",\n    ".toList _ _ (by decide) ⟨_, rfl⟩
  rw [h3] at h2
  rw [h2] at h1
  rw [h1] at h0
  rw [show ('"' :: ("createdAt".toList ++ ['"', ':'])) =
    ('"' :: (('c' :: "reatedAt".toList) ++ ['"', ':'])) from rfl, h0]
  simp
  omega

theorem subFind_body_updatedAt (num D S C eU : List Char)
    (hnum : '"' ∉ num) :
    subFind (bodyOf num (escapeJsonString D) (escapeJsonString S)
        (escapeJsonString C) eU)
      ('"' :: ("updatedAt".toList ++ ['"', ':'])) =
        some (num.length + (escapeJsonString D).length +
          (escapeJsonString S).length + (escapeJsonString C).length + 79) := by
  have h0 : subFind (bodyOf num (escapeJsonString D) (escapeJsonString S)
        (escapeJsonString C) eU)
      ('"' :: (('u' :: "pdatedAt".toList) ++ ['"', ':'])) =
      (subFind (",\n    ".toList ++ fromD (escapeJsonString D)
          (escapeJsonString S) (escapeJsonString C) eU)
        ('"' :: (('u' :: "pdatedAt".toList) ++ ['"', ':']))).map
          (· + (num.length + 11)) :=
    subFind_body_to_fromD num (escapeJsonString D) (escapeJsonString S)
      (escapeJsonString C) eU _ 'u' hnum (by decide) (by decide)
  have h1 : subFind (",\n    ".toList ++ fromD (escapeJsonString D)
        (escapeJsonString S) (escapeJsonString C) eU)
      ('"' :: (('u' :: "pdatedAt".toList) ++ ['"', ':'])) =
      (subFind (",\n    ".toList ++
          fromS (escapeJsonString S) (escapeJsonString C) eU)
        ('"' :: (('u' :: "pdatedAt".toList) ++ ['"', ':']))).map
          (· + ((escapeJsonString D).length + 23)) :=
    subFind_pass_fromD D (escapeJsonString S) (escapeJsonString C) eU _ 'u'
      (by decide) (by decide) (by decide) (by decide) (by decide)
  have h2 : subFind (",\n    ".toList ++
        fromS (escapeJsonString S) (escapeJsonString C) eU)
      ('"' :: (('u' :: "pdatedAt".toList) ++ ['"', ':'])) =
      (subFind (",\n    ".toList ++ fromC (escapeJsonString C) eU)
        ('"' :: (('u' :: "pdatedAt".toList) ++ ['"', ':']))).map
          (· + ((escapeJsonString S).length + 18)) :=
    subFind_pass_fromS S (escapeJsonString C) eU _ 'u' (by decide) (by decide)
      (by decide) (by decide) (by decide)
  have h3 : subFind (",\n    ".toList ++ fromC (escapeJsonString C) eU)
      ('"' :: (('u' :: "pdatedAt".toList) ++ ['"', ':'])) =
      (subFind (",\n    ".toList ++ fromU eU)
        ('"' :: (('u' :: "pdatedAt".toList) ++ ['"', ':']))).map
          (· + ((escapeJsonString C).length + 21)) :=
    subFind_pass_fromC C eU _ 'u' (by decide) (by decide)
      (by decide) (by decide) (by decide)
  have h4 : subFind (",\n    ".toList ++ fromU eU)
      ('"' :: (('u' :: "pdatedAt".toList) ++ ['"', ':'])) = some 6 :=
    subFind_arrive ",\n    ".toList _ _ (by decide) ⟨_, rfl⟩
  rw [h4] at h3
  rw [h3] at h2
  rw [h2] at h1
  rw [h1] at h0
  rw [show ('"' :: ("updatedAt".toList ++ ['"', ':'])) =
    ('"' :: (('u' :: "pdatedAt".toList) ++ ['"', ':'])) from rfl, h0]
  simp
  omega

end TaskCli
namespace TaskCli

theorem drop_succ_of_cons (s : List Char) (i : Nat) (c : Char) (X : List Char)
    (h : s.drop i = c :: X) : s.drop (i + 1) = X := by
  rw [← List.drop_drop, h]
  rfl

/-- Reading a quoted, escaped string value after a located key. -/
theorem findJsonValue_string_case (objectStr key v rest : List Char) (kp : Nat)
    (hfind : subFind objectStr ('"' :: (key ++ ['"', ':'])) = some kp)
    (hdrop : objectStr.drop (kp + (key.length + 3)) =
      ' ' :: '"' :: (escapeJsonString v ++ ('"' :: rest))) :
    findJsonValue objectStr key = v := by
  have hlen : ('"' :: (key ++ ['"', ':'])).length = key.length + 3 := by simp
  have hsw : skipWs objectStr (kp + (key.length + 3)) =
      kp + (key.length + 3) + 1 :=
    skipWs_one_space _ _ _ _ hdrop (by decide)
  have hdrop2 : objectStr.drop (kp + (key.length + 3) + 1) =
      '"' :: (escapeJsonString v ++ ('"' :: rest)) :=
    drop_succ_of_cons _ _ _ _ hdrop
  simp only [findJsonValue, hfind, hlen, hsw, hdrop2]
  simp only [if_true, strScan_escape v rest]
  rw [List.take_left]
  exact unescape_escape v

/-- Reading an unquoted numeric value after a located key. -/
theorem findJsonValue_numeric_case (objectStr key num rest : List Char) (kp : Nat)
    (hfind : subFind objectStr ('"' :: (key ++ ['"', ':'])) = some kp)
    (hdrop : objectStr.drop (kp + (key.length + 3)) = ' ' :: (num ++ (',' :: rest)))
    (hnum : ∀ c ∈ num, ∃ d : Nat, d < 10 ∧ c = Nat.digitChar d)
    (hne : num ≠ [])
    (hnb : '\x7d' ∉ objectStr) :
    findJsonValue objectStr key = num := by
  obtain ⟨n0, num', hn⟩ : ∃ n0 num', num = n0 :: num' := by
    cases num with
    | nil => exact absurd rfl hne
    | cons a b => exact ⟨a, b, rfl⟩
  obtain ⟨d0, hd0, hn0⟩ := hnum n0 (hn ▸ List.mem_cons_self n0 num')
  have hprops := digitChar_props d0 hd0
  have hn0sp : isSpaceC n0 = false := by rw [hn0]; exact hprops.2.2.2.2.2.2.2.1
  have hn0q : ¬ (n0 = '"') := by rw [hn0]; exact hprops.2.2.1
  have hlen : ('"' :: (key ++ ['"', ':'])).length = key.length + 3 := by simp
  have hdrop' : objectStr.drop (kp + (key.length + 3)) =
      ' ' :: n0 :: (num' ++ (',' :: rest)) := by
    rw [hdrop, hn]
    rfl
  have hsw : skipWs objectStr (kp + (key.length + 3)) =
      kp + (key.length + 3) + 1 :=
    skipWs_one_space _ _ _ _ hdrop' hn0sp
  have hdrop2 : objectStr.drop (kp + (key.length + 3) + 1) =
      num ++ (',' :: rest) := by
    rw [hn]
    exact drop_succ_of_cons _ _ _ _ hdrop'
  have hdrop2' : objectStr.drop (kp + (key.length + 3) + 1) =
      n0 :: (num' ++ (',' :: rest)) := by
    rw [hdrop2, hn]
    rfl
  have hcomma : charFindFrom objectStr ',' (kp + (key.length + 3) + 1) =
      some (num.length + (kp + (key.length + 3) + 1)) := by
    rw [charFindFrom, hdrop2,
      charFindIn_append_not_mem num (',' :: rest) ','
        (by
          intro hm
          obtain ⟨d, hd, hc⟩ := hnum ',' hm
          exact (digitChar_props d hd).2.2.2.2.2.1 hc.symm),
      charFindIn_cons_self]
    simp
  have hbrace : charFindFrom objectStr '\x7d' (kp + (key.length + 3) + 1) =
      none := by
    rw [charFindFrom, charFindIn_eq_none]
    · rfl
    · intro hm
      exact hnb (List.mem_of_mem_drop hm)
  have htrim : trimTrailingWs num = num :=
    trimTrailingWs_of_no_ws num (by
      intro c hc
      obtain ⟨d, hd, hcc⟩ := hnum c hc
      rw [hcc]
      exact (digitChar_props d hd).2.2.2.2.2.2.2.1)
  have hnumstr : isNumStr num = true := by
    rw [hn, isNumStr]
    rw [if_neg (by rw [hn0]; exact hprops.2.1)]
    rw [List.all_eq_true]
    intro c hc
    obtain ⟨d, hd, hcc⟩ := hnum c (hn ▸ hc)
    rw [hcc]
    exact (digitChar_props d hd).1
  simp only [findJsonValue, hfind, hlen, hsw, hdrop2']
  rw [if_neg hn0q]
  simp only [numericExtract, hcomma, hbrace]
  have hsub : num.length + (kp + (key.length + 3) + 1) - (kp + (key.length + 3) + 1)
      = num.length := by omega
  rw [hsub, hdrop2, List.take_left, htrim, if_pos hnumstr, hn]

end TaskCli
namespace TaskCli

/-! ### Splitting the body at each value position -/

theorem drop_body_id (num eD eS eC eU : List Char) :
    (bodyOf num eD eS eC eU).drop 10 =
      ' ' :: (num ++ (',' :: ('\n' :: ("    ".toList ++ fromD eD eS eC eU)))) := by
  rw [show bodyOf num eD eS eC eU = "\n    \"id\":".toList ++
    (' ' :: (num ++ (',' :: ('\n' :: ("    ".toList ++ fromD eD eS eC eU)))))
    from rfl]
  exact List.drop_left' rfl

theorem drop_body_desc (num eD eS eC eU : List Char) :
    (bodyOf num eD eS eC eU).drop (num.length + 31) =
      ' ' :: '"' :: (eD ++ ('"' :: (",\n    ".toList ++ fromS eS eC eU))) := by
  have hsplit : bodyOf num eD eS eC eU =
      ("\n    \"id\": ".toList ++ (num ++ ",\n    \"description\":".toList)) ++
      (' ' :: '"' :: (eD ++ ('"' :: (",\n    ".toList ++ fromS eS eC eU)))) := by
    simp only [bodyOf, fromD, List.append_assoc]
    rfl
  rw [hsplit]
  refine List.drop_left' ?_
  rw [List.length_append, List.length_append,
    show ("\n    \"id\": ".toList).length = 11 from rfl,
    show (",\n    \"description\":".toList).length = 20 from rfl]
  omega

theorem drop_body_status (num eD eS eC eU : List Char) :
    (bodyOf num eD eS eC eU).drop (num.length + eD.length + 49) =
      ' ' :: '"' :: (eS ++ ('"' :: (",\n    ".toList ++ fromC eC eU))) := by
  have hsplit : bodyOf num eD eS eC eU =
      ("\n    \"id\": ".toList ++ (num ++ (",\n    \"description\": \"".toList ++
        (eD ++ "\",\n    \"status\":".toList)))) ++
      (' ' :: '"' :: (eS ++ ('"' :: (",\n    ".toList ++ fromC eC eU)))) := by
    simp only [bodyOf, fromD, fromS, List.append_assoc]
    rfl
  rw [hsplit]
  refine List.drop_left' ?_
  simp only [List.length_append,
    show ("\n    \"id\": ".toList).length = 11 from rfl,
    show (",\n    \"description\": \"".toList).length = 22 from rfl,
    show ("\",\n    \"status\":".toList).length = 16 from rfl]
  omega

theorem drop_body_createdAt (num eD eS eC eU : List Char) :
    (bodyOf num eD eS eC eU).drop (num.length + eD.length + eS.length + 70) =
      ' ' :: '"' :: (eC ++ ('"' :: (",\n    ".toList ++ fromU eU))) := by
  have hsplit : bodyOf num eD eS eC eU =
      ("\n    \"id\": ".toList ++ (num ++ (",\n    \"description\": \"".toList ++
        (eD ++ ("\",\n    \"status\": \"".toList ++
        (eS ++ "\",\n    \"createdAt\":".toList)))))) ++
      (' ' :: '"' :: (eC ++ ('"' :: (",\n    ".toList ++ fromU eU)))) := by
    simp only [bodyOf, fromD, fromS, fromC, List.append_assoc]
    rfl
  rw [hsplit]
  refine List.drop_left' ?_
  simp only [List.length_append,
    show ("\n    \"id\": ".toList).length = 11 from rfl,
    show (",\n    \"description\": \"".toList).length = 22 from rfl,
    show ("\",\n    \"status\": \"".toList).length = 18 from rfl,
    show ("\",\n    \"createdAt\":".toList).length = 19 from rfl]
  omega

theorem drop_body_updatedAt (num eD eS eC eU : List Char) :
    (bodyOf num eD eS eC eU).drop
        (num.length + eD.length + eS.length + eC.length + 91) =
      ' ' :: '"' :: (eU ++ ('"' :: "\n  ".toList)) := by
  have hsplit : bodyOf num eD eS eC eU =
      ("\n    \"id\": ".toList ++ (num ++ (",\n    \"description\": \"".toList ++
        (eD ++ ("\",\n    \"status\": \"".toList ++
        (eS ++ ("\",\n    \"createdAt\": \"".toList ++
        (eC ++ "\",\n    \"updatedAt\":".toList)))))))) ++
      (' ' :: '"' :: (eU ++ ('"' :: "\n  ".toList))) := by
    simp only [bodyOf, fromD, fromS, fromC, fromU, List.append_assoc]
    rfl
  rw [hsplit]
  refine List.drop_left' ?_
  simp only [List.length_append,
    show ("\n    \"id\": ".toList).length = 11 from rfl,
    show (",\n    \"description\": \"".toList).length = 22 from rfl,
    show ("\",\n    \"status\": \"".toList).length = 18 from rfl,
    show ("\",\n    \"createdAt\": \"".toList).length = 21 from rfl,
    show ("\",\n    \"updatedAt\":".toList).length = 19 from rfl]
  omega

end TaskCli
namespace TaskCli

theorem bodyOf_no_close_brace (num eD eS eC eU : List Char)
    (h1 : '\x7d' ∉ num) (h2 : '\x7d' ∉ eD) (h3 : '\x7d' ∉ eS)
    (h4 : '\x7d' ∉ eC) (h5 : '\x7d' ∉ eU) :
    '\x7d' ∉ bodyOf num eD eS eC eU := by
  simp [bodyOf, fromD, fromS, fromC, fromU, h1, h2, h3, h4, h5]

theorem bodyOf_no_open_brace (num eD eS eC eU : List Char)
    (h1 : '\x7b' ∉ num) (h2 : '\x7b' ∉ eD) (h3 : '\x7b' ∉ eS)
    (h4 : '\x7b' ∉ eC) (h5 : '\x7b' ∉ eU) :
    '\x7b' ∉ bodyOf num eD eS eC eU := by
  simp [bodyOf, fromD, fromS, fromC, fromU, h1, h2, h3, h4, h5]

/-! ### The five field extractions on an encoded body -/

theorem findJsonValue_body_id (num eD eS eC eU : List Char)
    (hnum : ∀ c ∈ num, ∃ d : Nat, d < 10 ∧ c = Nat.digitChar d)
    (hne : num ≠ [])
    (hnb : '\x7d' ∉ bodyOf num eD eS eC eU) :
    findJsonValue (bodyOf num eD eS eC eU) "id".toList = num :=
  findJsonValue_numeric_case _ _ num _ 5
    (subFind_body_id num eD eS eC eU)
    (drop_body_id num eD eS eC eU)
    hnum hne hnb

theorem findJsonValue_body_desc (num D S C U : List Char)
    (hnum : '"' ∉ num) :
    findJsonValue (bodyOf num (escapeJsonString D) (escapeJsonString S)
      (escapeJsonString C) (escapeJsonString U)) "description".toList = D := by
  have hdrop := drop_body_desc num (escapeJsonString D) (escapeJsonString S)
    (escapeJsonString C) (escapeJsonString U)
  rw [show num.length + 31 = num.length + 17 + (("description".toList).length + 3) by
    rw [show ("description".toList).length = 11 from rfl]] at hdrop
  exact findJsonValue_string_case _ _ D _ _
    (subFind_body_desc num (escapeJsonString D) (escapeJsonString S)
      (escapeJsonString C) (escapeJsonString U) hnum)
    hdrop

theorem findJsonValue_body_status (num D S C U : List Char)
    (hnum : '"' ∉ num) :
    findJsonValue (bodyOf num (escapeJsonString D) (escapeJsonString S)
      (escapeJsonString C) (escapeJsonString U)) "status".toList = S := by
  have hdrop := drop_body_status num (escapeJsonString D) (escapeJsonString S)
    (escapeJsonString C) (escapeJsonString U)
  rw [show num.length + (escapeJsonString D).length + 49 =
      num.length + (escapeJsonString D).length + 40 +
        (("status".toList).length + 3) by
    rw [show ("status".toList).length = 6 from rfl]] at hdrop
  exact findJsonValue_string_case _ _ S _ _
    (subFind_body_status num D (escapeJsonString S)
      (escapeJsonString C) (escapeJsonString U) hnum)
    hdrop

theorem findJsonValue_body_createdAt (num D S C U : List Char)
    (hnum : '"' ∉ num) :
    findJsonValue (bodyOf num (escapeJsonString D) (escapeJsonString S)
      (escapeJsonString C) (escapeJsonString U)) "createdAt".toList = C := by
  have hdrop := drop_body_createdAt num (escapeJsonString D) (escapeJsonString S)
    (escapeJsonString C) (escapeJsonString U)
  rw [show num.length + (escapeJsonString D).length +
        (escapeJsonString S).length + 70 =
      num.length + (escapeJsonString D).length + (escapeJsonString S).length +
        58 + (("createdAt".toList).length + 3) by
    rw [show ("createdAt".toList).length = 9 from rfl]] at hdrop
  exact findJsonValue_string_case _ _ C _ _
    (subFind_body_createdAt num D S
      (escapeJsonString C) (escapeJsonString U) hnum)
    hdrop

theorem findJsonValue_body_updatedAt (num D S C U : List Char)
    (hnum : '"' ∉ num) :
    findJsonValue (bodyOf num (escapeJsonString D) (escapeJsonString S)
      (escapeJsonString C) (escapeJsonString U)) "updatedAt".toList = U := by
  have hdrop := drop_body_updatedAt num (escapeJsonString D) (escapeJsonString S)
    (escapeJsonString C) (escapeJsonString U)
  rw [show num.length + (escapeJsonString D).length +
        (escapeJsonString S).length + (escapeJsonString C).length + 91 =
      num.length + (escapeJsonString D).length + (escapeJsonString S).length +
        (escapeJsonString C).length + 79 + (("updatedAt".toList).length + 3) by
    rw [show ("updatedAt".toList).length = 9 from rfl]] at hdrop
  exact findJsonValue_string_case _ _ U _ _
    (subFind_body_updatedAt num D S C
      (escapeJsonString U) hnum)
    hdrop

end TaskCli
namespace TaskCli

/-! ### Parsing a whole encoded body back into the task -/

theorem stoiValid_natToDigits (n : Nat) (h : (n : Int) ≤ 2147483647) :
    stoiValid (natToDigits n) = some (n : Int) := by
  obtain ⟨c, rest, hsplit⟩ : ∃ c rest, natToDigits n = c :: rest := by
    cases hd : natToDigits n with
    | nil => exact absurd hd (natToDigits_ne_nil n)
    | cons a b => exact ⟨a, b, rfl⟩
  obtain ⟨d, hd, hc⟩ := natToDigits_mem n c (hsplit ▸ List.mem_cons_self c rest)
  have hnm : ¬ (c = '-') := by rw [hc]; exact (digitChar_props d hd).2.1
  have hval : natOfDigits (c :: rest) = n := by
    rw [← hsplit]; exact natOfDigits_natToDigits n
  rw [hsplit, stoiValid, if_neg hnm, hval, if_neg (by omega)]

/-- Field strings that survive the codec unchanged: non-empty and free
of the two brace characters the hand-rolled object scanner keys on.
Quotes and backslashes need no exclusion: the escaper guards them and
the value scanner honors the escapes. -/
@[reducible] def safeField (s : List Char) : Prop :=
  s ≠ [] ∧ ∀ c ∈ s, c ≠ '\x7b' ∧ c ≠ '\x7d'

/-- Well-formedness exactly as claim C1 words it: positive id (a C++
`int`, hence at most 2147483647), non-empty description, valid status,
non-empty timestamps. -/
@[reducible] def claimWellFormedTask (t : Task) : Prop :=
  0 < t.id ∧ t.id ≤ 2147483647 ∧ t.description ≠ [] ∧
  isValidStatus t.status = true ∧ t.createdAt ≠ [] ∧ t.updatedAt ≠ []

/-- The amended well-formedness: as above, with the description and the
two timestamps additionally free of `{` and `}`. -/
@[reducible] def safeWellFormedTask (t : Task) : Prop :=
  0 < t.id ∧ t.id ≤ 2147483647 ∧ safeField t.description ∧
  isValidStatus t.status = true ∧ safeField t.createdAt ∧ safeField t.updatedAt

theorem valid_status_ne_nil (s : List Char) (h : isValidStatus s = true) :
    s ≠ [] := by
  intro he
  rw [he] at h
  exact absurd h (by decide)

theorem valid_status_no_braces (s : List Char) (h : isValidStatus s = true) :
    '\x7b' ∉ s ∧ '\x7d' ∉ s := by
  rw [isValidStatus] at h
  simp only [Bool.or_eq_true, decide_eq_true_eq] at h
  rcases h with (h | h) | h <;> subst h <;> exact ⟨by decide, by decide⟩

theorem intToChars_pos (i : Int) (h : 0 < i) :
    intToChars i = natToDigits i.toNat := by
  rw [intToChars, if_neg (by omega)]

theorem escape_preserves_not_mem (v : List Char) (c : Char)
    (hv : c ∉ v) (hc : c ≠ '\\') : c ∉ escapeJsonString v := by
  intro hm
  rcases mem_escape v c hm with h | h
  · exact hv h
  · exact hc h

/-- Decoding one encoded body yields the original task, for a safe
well-formed task. -/
theorem parseTaskObject_body (t : Task) (hwf : safeWellFormedTask t) :
    parseTaskObject (taskBody t) = some t := by
  obtain ⟨hid, hidmax, ⟨hDne, hDsafe⟩, hSval, ⟨hCne, hCsafe⟩, ⟨hUne, hUsafe⟩⟩ := hwf
  set n := t.id.toNat with hn
  have hnum_eq : intToChars t.id = natToDigits n := intToChars_pos t.id hid
  have hdig : ∀ c ∈ natToDigits n, ∃ d : Nat, d < 10 ∧ c = Nat.digitChar d :=
    natToDigits_mem n
  have hnumq : '"' ∉ natToDigits n := by
    intro hm
    obtain ⟨d, hd, hc⟩ := hdig _ hm
    exact (digitChar_props d hd).2.2.1 hc.symm
  have hnumbrace : '\x7d' ∉ natToDigits n := by
    intro hm
    obtain ⟨d, hd, hc⟩ := hdig _ hm
    exact (digitChar_props d hd).2.2.2.2.1 hc.symm
  have hbody : taskBody t = bodyOf (natToDigits n)
      (escapeJsonString t.description) (escapeJsonString t.status)
      (escapeJsonString t.createdAt) (escapeJsonString t.updatedAt) := by
    rw [taskBody_eq_bodyOf, hnum_eq]
  have hnb : '\x7d' ∉ bodyOf (natToDigits n)
      (escapeJsonString t.description) (escapeJsonString t.status)
      (escapeJsonString t.createdAt) (escapeJsonString t.updatedAt) :=
    bodyOf_no_close_brace _ _ _ _ _ hnumbrace
      (escape_preserves_not_mem _ _ (fun hm => ((hDsafe _ hm).2) rfl) (by decide))
      (escape_preserves_not_mem _ _ ((valid_status_no_braces _ hSval).2) (by decide))
      (escape_preserves_not_mem _ _ (fun hm => ((hCsafe _ hm).2) rfl) (by decide))
      (escape_preserves_not_mem _ _ (fun hm => ((hUsafe _ hm).2) rfl) (by decide))
  have hidv : findJsonValue (taskBody t) "id".toList = natToDigits n := by
    rw [hbody]
    exact findJsonValue_body_id _ _ _ _ _ hdig (natToDigits_ne_nil n) hnb
  have hdesc : findJsonValue (taskBody t) "description".toList = t.description := by
    rw [hbody]
    exact findJsonValue_body_desc _ _ _ _ _ hnumq
  have hstat : findJsonValue (taskBody t) "status".toList = t.status := by
    rw [hbody]
    exact findJsonValue_body_status _ _ _ _ _ hnumq
  have hcre : findJsonValue (taskBody t) "createdAt".toList = t.createdAt := by
    rw [hbody]
    exact findJsonValue_body_createdAt _ _ _ _ _ hnumq
  have hupd : findJsonValue (taskBody t) "updatedAt".toList = t.updatedAt := by
    rw [hbody]
    exact findJsonValue_body_updatedAt _ _ _ _ _ hnumq
  have hstoi : stoiValid (natToDigits n) = some t.id := by
    rw [stoiValid_natToDigits n (by omega), hn]
    congr 1
    omega
  rw [parseTaskObject]
  simp only [hidv, hdesc, hstat, hcre, hupd, hstoi]
  rw [if_neg (natToDigits_ne_nil n)]
  rw [if_neg hDne]
  rw [if_neg (show ¬ (t.status = [] ∨ ¬ (isValidStatus t.status = true)) from
    fun hor => hor.elim (fun he => valid_status_ne_nil _ hSval he)
      (fun hnv => hnv hSval))]
  rw [if_neg hCne, if_neg hUne]

end TaskCli
namespace TaskCli

theorem taskBody_no_braces (t : Task) (hwf : safeWellFormedTask t) :
    '\x7b' ∉ taskBody t ∧ '\x7d' ∉ taskBody t := by
  obtain ⟨hid, hidmax, ⟨hDne, hDsafe⟩, hSval, ⟨hCne, hCsafe⟩, ⟨hUne, hUsafe⟩⟩ := hwf
  have hnum : ∀ c ∈ intToChars t.id, ∃ d : Nat, d < 10 ∧ c = Nat.digitChar d := by
    rw [intToChars_pos t.id hid]
    exact natToDigits_mem _
  rw [taskBody_eq_bodyOf]
  constructor
  · refine bodyOf_no_open_brace _ _ _ _ _ ?_ ?_ ?_ ?_ ?_
    · intro hm
      obtain ⟨d, hd, hc⟩ := hnum _ hm
      exact (digitChar_props d hd).2.2.2.1 hc.symm
    · exact escape_preserves_not_mem _ _ (fun hm => ((hDsafe _ hm).1) rfl) (by decide)
    · exact escape_preserves_not_mem _ _ ((valid_status_no_braces _ hSval).1) (by decide)
    · exact escape_preserves_not_mem _ _ (fun hm => ((hCsafe _ hm).1) rfl) (by decide)
    · exact escape_preserves_not_mem _ _ (fun hm => ((hUsafe _ hm).1) rfl) (by decide)
  · refine bodyOf_no_close_brace _ _ _ _ _ ?_ ?_ ?_ ?_ ?_
    · intro hm
      obtain ⟨d, hd, hc⟩ := hnum _ hm
      exact (digitChar_props d hd).2.2.2.2.1 hc.symm
    · exact escape_preserves_not_mem _ _ (fun hm => ((hDsafe _ hm).2) rfl) (by decide)
    · exact escape_preserves_not_mem _ _ ((valid_status_no_braces _ hSval).2) (by decide)
    · exact escape_preserves_not_mem _ _ (fun hm => ((hCsafe _ hm).2) rfl) (by decide)
    · exact escape_preserves_not_mem _ _ (fun hm => ((hUsafe _ hm).2) rfl) (by decide)

/-- Main loop invariant: when the text remaining from the current
position is a brace-free separator followed by the encoded remaining
tasks and the array's closing bracket, the scan appends exactly those
tasks to the accumulator. -/
theorem scanLoop_middleR (rem : List Task) :
    ∀ (W content : List Char) (fuel currentPos : Nat) (acc : List Task),
      (∀ t ∈ rem, safeWellFormedTask t) →
      '\x7b' ∉ W →
      content.drop currentPos = W ++ (middleR rem ++ [']']) →
      currentPos + W.length + (middleR rem).length + 1 = content.length →
      content.length ≤ currentPos + fuel →
      scanLoop fuel content (content.length - 1) currentPos acc = acc ++ rem := by
  induction rem with
  | nil =>
    intro W content fuel currentPos acc _ hW hdrop hlen hfuel
    cases fuel with
    | zero => simp [scanLoop]
    | succ f =>
      rw [scanLoop]
      simp only [List.append_nil]
      by_cases hlt : currentPos < content.length - 1
      · have hfind : charFindFrom content '\x7b' currentPos = none := by
          rw [charFindFrom, hdrop, charFindIn_eq_none]
          · rfl
          · simp only [middleR, List.nil_append, List.mem_append]
            intro hm
            rcases hm with hm | hm
            · exact hW hm
            · simp at hm
        rw [if_pos hlt]
        simp [hfind]
      · rw [if_neg hlt]
  | cons t rest ih =>
    intro W content fuel currentPos acc hwf hW hdrop hlen hfuel
    obtain ⟨sep, hsepW, hsepne, hmid⟩ :
        ∃ sep : List Char, '\x7b' ∉ sep ∧ sep ≠ [] ∧
          middleR (t :: rest) = encodeTaskBlock t ++ (sep ++ middleR rest) := by
      cases rest with
      | nil => exact ⟨['\n'], by decide, by simp, by simp [middleR]⟩
      | cons r rs => exact ⟨[',', '\n'], by decide, by simp, by simp [middleR]⟩
    have hbr := taskBody_no_braces t (hwf t (by simp))
    have hstruct : content.drop currentPos =
        W ++ (' ' :: ' ' :: '\x7b' :: (taskBody t ++
          ('\x7d' :: (sep ++ (middleR rest ++ [']']))))) := by
      rw [hdrop, hmid]
      simp only [encodeTaskBlock, List.append_assoc, List.cons_append,
        List.singleton_append, List.nil_append]
    have hlen2 : currentPos + W.length + (taskBody t).length + sep.length +
        (middleR rest).length + 5 = content.length := by
      have h1 := congrArg List.length hmid
      simp only [List.length_append, encodeTaskBlock, List.length_cons,
        List.length_nil] at h1
      omega
    cases fuel with
    | zero => exfalso; omega
    | succ f =>
      rw [scanLoop]
      rw [if_pos (by omega : currentPos < content.length - 1)]
      have hfind1 : charFindFrom content '\x7b' currentPos =
          some (2 + W.length + currentPos) := by
        rw [charFindFrom, hstruct, charFindIn_append_not_mem _ _ _ hW]
        simp [charFindIn]
      simp only [hfind1]
      rw [if_neg (by omega : ¬ 2 + W.length + currentPos ≥ content.length - 1)]
      have hdropB : content.drop (2 + W.length + currentPos + 1) =
          taskBody t ++ ('\x7d' :: (sep ++ (middleR rest ++ [']']))) := by
        have hsplit : content.drop currentPos =
            (W ++ [' ', ' ', '\x7b']) ++ (taskBody t ++
              ('\x7d' :: (sep ++ (middleR rest ++ [']'])))) := by
          rw [hstruct]
          simp only [List.append_assoc, List.cons_append, List.singleton_append,
            List.nil_append]
        have hdd : content.drop (2 + W.length + currentPos + 1) =
            (content.drop currentPos).drop (W.length + 3) := by
          rw [List.drop_drop]
          congr 1
          omega
        rw [hdd, hsplit, List.drop_left' (by simp)]
      have hfind2 : charFindFrom content '\x7d' (2 + W.length + currentPos + 1) =
          some ((taskBody t).length + (2 + W.length + currentPos + 1)) := by
        rw [charFindFrom, hdropB,
          charFindIn_append_not_mem _ _ _ hbr.2, charFindIn_cons_self]
        simp
      have heq2 : taskBody t ++ ('\x7d' :: (sep ++ (middleR rest ++ [']']))) =
          (taskBody t ++ ['\x7d']) ++ (sep ++ (middleR rest ++ [']'])) := by
        simp only [List.append_assoc, List.singleton_append]
      have hnb2 : '\x7b' ∉ taskBody t ++ ['\x7d'] := by
        simp only [List.mem_append]
        intro hm
        rcases hm with hm | hm
        · exact hbr.1 hm
        · simp at hm
      have hdropR : content.drop
          ((taskBody t).length + (2 + W.length + currentPos + 1) + 1) =
          sep ++ (middleR rest ++ [']']) := by
        have hdd : content.drop
            ((taskBody t).length + (2 + W.length + currentPos + 1) + 1) =
            (content.drop (2 + W.length + currentPos + 1)).drop
              ((taskBody t).length + 1) := by
          rw [List.drop_drop]
          congr 1
          omega
        rw [hdd, hdropB, heq2, List.drop_left' (by simp)]
      have hrec : scanLoop f content (content.length - 1)
          ((taskBody t).length + (2 + W.length + currentPos + 1) + 1)
          (acc ++ [t]) = (acc ++ [t]) ++ rest := by
        refine ih sep content f _ (acc ++ [t])
          (fun u hu => hwf u (by simp [hu])) hsepW hdropR ?_ ?_
        · omega
        · omega
      have hparse : parseTaskObject (taskBody t) = some t :=
        parseTaskObject_body t (hwf t (by simp))
      rcases hz : charFindIn (sep ++ (middleR rest ++ [']'])) '\x7b' with _ | k
      · have hfind3 : charFindFrom content '\x7b' (2 + W.length + currentPos + 1) =
            none := by
          rw [charFindFrom, hdropB, heq2, charFindIn_append_not_mem _ _ _ hnb2, hz]
          rfl
        simp only [hfind2, hfind3]
        rw [if_neg (by
          omega : ¬ (taskBody t).length + (2 + W.length + currentPos + 1) ≥
            content.length - 1)]
        rw [show (taskBody t).length + (2 + W.length + currentPos + 1) -
            (2 + W.length + currentPos) - 1 = (taskBody t).length by omega]
        rw [hdropB]
        rw [List.take_left]
        simp only [hparse]
        rw [hrec]
        simp
      · have hfind3 : charFindFrom content '\x7b' (2 + W.length + currentPos + 1) =
            some (k + ((taskBody t).length + 1) + (2 + W.length + currentPos + 1)) := by
          rw [charFindFrom, hdropB, heq2, charFindIn_append_not_mem _ _ _ hnb2, hz]
          simp [Option.map_map, List.length_append]
        simp only [hfind2, hfind3]
        rw [if_neg (by
          simp only [decide_eq_true_eq]
          omega)]
        rw [if_neg (by
          omega : ¬ (taskBody t).length + (2 + W.length + currentPos + 1) ≥
            content.length - 1)]
        rw [show (taskBody t).length + (2 + W.length + currentPos + 1) -
            (2 + W.length + currentPos) - 1 = (taskBody t).length by omega]
        rw [hdropB]
        rw [List.take_left]
        simp only [hparse]
        rw [hrec]
        simp

end TaskCli
namespace TaskCli

theorem trimWs_save (tasks : List Task) :
    trimWs (saveTasksString tasks) = '[' :: '\n' :: (middleR tasks ++ [']']) := by
  have h0 : saveTasksString tasks =
      '[' :: '\n' :: (middleR tasks ++ [']', '\n']) := by
    rw [saveTasksString]
    rfl
  have hd1 : List.dropWhile isSpaceC ('[' :: '\n' :: (middleR tasks ++ [']', '\n'])) =
      '[' :: '\n' :: (middleR tasks ++ [']', '\n']) :=
    List.dropWhile_cons_of_neg (by decide)
  have hrev : ('[' :: '\n' :: (middleR tasks ++ [']', '\n']) : List Char).reverse =
      '\n' :: ']' :: ('[' :: '\n' :: middleR tasks).reverse := by
    rw [show ('[' :: '\n' :: (middleR tasks ++ [']', '\n']) : List Char) =
      ('[' :: '\n' :: middleR tasks) ++ [']', '\n'] by simp]
    rw [List.reverse_append]
    rfl
  have hd2 : List.dropWhile isSpaceC
      ('\n' :: ']' :: ('[' :: '\n' :: middleR tasks).reverse) =
      List.dropWhile isSpaceC (']' :: ('[' :: '\n' :: middleR tasks).reverse) :=
    List.dropWhile_cons_of_pos (by decide)
  have hd3 : List.dropWhile isSpaceC
      (']' :: ('[' :: '\n' :: middleR tasks).reverse) =
      ']' :: ('[' :: '\n' :: middleR tasks).reverse :=
    List.dropWhile_cons_of_neg (by decide)
  rw [trimWs, h0, hd1, hrev, hd2, hd3, List.reverse_cons, List.reverse_reverse]
  simp

/-- Round trip at the content level: decoding the exact text `saveTasks`
writes for a collection of safe well-formed tasks restores the
collection. -/
theorem load_save_roundtrip (tasks : List Task)
    (hwf : ∀ t ∈ tasks, safeWellFormedTask t) :
    loadTasksFromContent (saveTasksString tasks) = tasks := by
  have hall : (saveTasksString tasks).all isSpaceC = false := by
    rw [show saveTasksString tasks =
      '[' :: ('\n' :: (middleR tasks ++ "]\n".toList)) from rfl, List.all_cons]
    rfl
  have htrim := trimWs_save tasks
  have hlc : ('[' :: '\n' :: (middleR tasks ++ [']']) : List Char).length =
      (middleR tasks).length + 3 := by
    simp
  rw [loadTasksFromContent]
  rw [if_neg (show ¬ ((saveTasksString tasks).all isSpaceC = true) by
    rw [hall]; decide)]
  simp only [htrim]
  rw [if_neg (show ¬ (('[' :: '\n' :: (middleR tasks ++ [']']) : List Char) = [] ∨
      ('[' :: '\n' :: (middleR tasks ++ [']']) : List Char) = "[]".toList) by
    intro hor
    rcases hor with h | h
    · exact absurd h (by simp)
    · rw [show ("[]".toList : List Char) = ['[', ']'] from rfl] at h
      simp at h)]
  have hfb : charFindFrom ('[' :: '\n' :: (middleR tasks ++ [']'])) '[' 0 =
      some 0 := by
    rw [charFindFrom, List.drop_zero, charFindIn_cons_self]
    rfl
  have hrb : charRFind ('[' :: '\n' :: (middleR tasks ++ [']'])) ']' =
      some ((middleR tasks).length + 2) := by
    rw [charRFind]
    rw [show ('[' :: '\n' :: (middleR tasks ++ [']']) : List Char) =
      ('[' :: '\n' :: middleR tasks) ++ [']'] by simp]
    rw [List.reverse_append]
    rw [show ([']'] : List Char).reverse ++ ('[' :: '\n' :: middleR tasks).reverse =
      ']' :: ('[' :: '\n' :: middleR tasks).reverse from rfl]
    rw [charFindIn_cons_self]
    simp
  simp only [hfb, hrb]
  rw [if_neg (by omega : ¬ (0 : Nat) ≥ (middleR tasks).length + 2)]
  have hres := scanLoop_middleR tasks ['\n']
    ('[' :: '\n' :: (middleR tasks ++ [']']))
    (('[' :: '\n' :: (middleR tasks ++ [']']) : List Char).length + 1) 1 []
    hwf (by decide) rfl (by simp [hlc]; omega) (by omega)
  rw [show (middleR tasks).length + 2 =
    ('[' :: '\n' :: (middleR tasks ++ [']']) : List Char).length - 1 by
      rw [hlc]; omega]
  simpa using hres

end TaskCli
namespace TaskCli

set_option maxRecDepth 100000 in
/-- C1 counterexample: the task below satisfies the claim's
well-formedness exactly as stated (positive id, non-empty description
text, valid status, non-empty timestamps), yet decoding its encoding
loses it: the `}` in the description is taken for the object's closing
brace, the truncated object fails field validation, and the decoded
collection is empty. -/
theorem roundtrip_counterexample :
    claimWellFormedTask ⟨1, ['x', '\x7d'], "todo".toList, ['c'], ['u']⟩ ∧
    loadTasksFromContent
        (saveTasksString [⟨1, ['x', '\x7d'], "todo".toList, ['c'], ['u']⟩]) = [] ∧
    ([] : List Task) ≠ [⟨1, ['x', '\x7d'], "todo".toList, ['c'], ['u']⟩] := by
  refine ⟨by decide, by decide, by decide⟩

/-- C1 (amended): for every collection of well-formed tasks whose
description and timestamp strings moreover contain neither `{` nor `}`
(the two characters the hand-rolled object scanner treats as structure),
decoding the text produced by encoding the collection yields the
collection back, field for field and in order, for any size 0, 1 or
many.  Quotes and backslashes in the fields are fine: the escaper
guards them and the string scanner honors the escapes.  (Without the
brace restriction the claim fails — see the counterexample.) -/
theorem roundtrip_spec (tasks : List Task)
    (hwf : ∀ t ∈ tasks, safeWellFormedTask t) :
    loadTasksFromContent (saveTasksString tasks) = tasks :=
  load_save_roundtrip tasks hwf

set_option maxRecDepth 100000 in
/-- C1 witness: the round trip at concrete collections of sizes 0, 1
and 2, the last with a quote inside one description and a backslash
inside another. -/
theorem roundtrip_spec_witness :
    loadTasksFromContent (saveTasksString []) = [] ∧
    loadTasksFromContent (saveTasksString
      [⟨1, "Buy milk".toList, "todo".toList, "2024-01-01 10:00:00".toList,
        "2024-01-01 10:00:00".toList⟩]) =
      [⟨1, "Buy milk".toList, "todo".toList, "2024-01-01 10:00:00".toList,
        "2024-01-01 10:00:00".toList⟩] ∧
    loadTasksFromContent (saveTasksString
      [⟨1, ['a', '"', 'b'], "todo".toList, ['c'], ['u']⟩,
       ⟨2, ['b', '\\'], "done".toList, ['c'], ['u']⟩]) =
      [⟨1, ['a', '"', 'b'], "todo".toList, ['c'], ['u']⟩,
       ⟨2, ['b', '\\'], "done".toList, ['c'], ['u']⟩] :=
  ⟨roundtrip_spec [] (by decide),
   roundtrip_spec [⟨1, "Buy milk".toList, "todo".toList,
      "2024-01-01 10:00:00".toList, "2024-01-01 10:00:00".toList⟩] (by decide),
   roundtrip_spec [⟨1, ['a', '"', 'b'], "todo".toList, ['c'], ['u']⟩,
      ⟨2, ['b', '\\'], "done".toList, ['c'], ['u']⟩] (by decide)⟩

end TaskCli
namespace TaskCli

/-- C5: whenever the object scan has located an opening brace inside
the array and either a further opening brace appears before the
expected closing brace (nesting) or the closing brace lies at or past
the array's closing bracket, the loop stops at that point and returns
exactly the tasks accumulated so far, without discarding them. -/
theorem scan_stops_on_malformed_object (fuel : Nat) (content : List Char)
    (endPos currentPos : Nat) (acc : List Task) (objStart : Nat)
    (hfind : charFindFrom content '\x7b' currentPos = some objStart)
    (hmal :
      (∃ objEnd nextObj, charFindFrom content '\x7d' (objStart + 1) = some objEnd ∧
        charFindFrom content '\x7b' (objStart + 1) = some nextObj ∧
        nextObj < objEnd) ∨
      (∃ objEnd, charFindFrom content '\x7d' (objStart + 1) = some objEnd ∧
        endPos ≤ objEnd)) :
    scanLoop fuel content endPos currentPos acc = acc := by
  cases fuel with
  | zero => rfl
  | succ f =>
    rw [scanLoop]
    by_cases hlt : currentPos < endPos
    · rw [if_pos hlt]
      simp only [hfind]
      by_cases hos : objStart ≥ endPos
      · rw [if_pos hos]
      · rw [if_neg hos]
        rcases hmal with ⟨objEnd, nextObj, h1, h2, h3⟩ | ⟨objEnd, h1, h2⟩
        · simp only [h1, h2]
          rw [if_pos (by simp only [decide_eq_true_eq]; omega)]
        · simp only [h1]
          by_cases hn : (match charFindFrom content '\x7b' (objStart + 1) with
              | some n => decide (objEnd > n)
              | none => false) = true
          · rw [if_pos hn]
          · rw [if_neg hn, if_pos (by omega : objEnd ≥ endPos)]
    · rw [if_neg hlt]

/-- C5 witness: in the text `[{{}]` the scan meets a nested opening
brace before the closing brace and returns the accumulator untouched. -/
theorem scan_stops_on_malformed_object_witness :
    scanLoop 10 ['[', '\x7b', '\x7b', '\x7d', ']'] 4 1
      [⟨1, ['d'], "todo".toList, ['c'], ['u']⟩] =
      [⟨1, ['d'], "todo".toList, ['c'], ['u']⟩] :=
  scan_stops_on_malformed_object 10 ['[', '\x7b', '\x7b', '\x7d', ']'] 4 1
    [⟨1, ['d'], "todo".toList, ['c'], ['u']⟩] 1 (by decide)
    (Or.inl ⟨3, 2, by decide, by decide, by decide⟩)

/-- C6: decoding an input that is empty, whitespace-only, exactly an
empty array after trimming, or whose outermost array delimiters are
missing or misplaced (no `[`, no `]`, or `[` at or after `]`) yields
the empty collection; the decoder is a total function, so this failure
is non-fatal to the caller. -/
theorem load_empty_or_malformed (raw : List Char)
    (h : raw.all isSpaceC = true ∨ trimWs raw = [] ∨ trimWs raw = "[]".toList ∨
      charFindFrom (trimWs raw) '[' 0 = none ∨ charRFind (trimWs raw) ']' = none ∨
      (∃ s e, charFindFrom (trimWs raw) '[' 0 = some s ∧
        charRFind (trimWs raw) ']' = some e ∧ e ≤ s)) :
    loadTasksFromContent raw = [] := by
  rw [loadTasksFromContent]
  by_cases hall : raw.all isSpaceC = true
  · rw [if_pos hall]
  · rw [if_neg hall]
    by_cases hc : trimWs raw = [] ∨ trimWs raw = "[]".toList
    · rw [if_pos hc]
    · rw [if_neg hc]
      rcases h with h | h | h | h | h | ⟨s, e, h1, h2, h3⟩
      · exact absurd h hall
      · exact absurd (Or.inl h) hc
      · exact absurd (Or.inr h) hc
      · simp only [h]
      · rcases hf : charFindFrom (trimWs raw) '[' 0 with _ | s
        · simp only [hf]
        · simp only [hf, h]
      · simp only [h1, h2]
        rw [if_pos (by omega : s ≥ e)]

/-- C6 witness: a whitespace-only input and an input with no array
brackets both decode to the empty collection. -/
theorem load_empty_or_malformed_witness :
    loadTasksFromContent "   ".toList = [] ∧
    loadTasksFromContent "bogus".toList = [] :=
  ⟨load_empty_or_malformed "   ".toList (Or.inl (by decide)),
   load_empty_or_malformed "bogus".toList
     (Or.inr (Or.inr (Or.inr (Or.inl (by decide)))))⟩

end TaskCli
namespace TaskCli

/-- A task object is skipped whenever any of the five extractions comes
back empty. -/
theorem parse_none_of_field_empty (objectStr : List Char)
    (h : findJsonValue objectStr "id".toList = [] ∨
      findJsonValue objectStr "description".toList = [] ∨
      findJsonValue objectStr "status".toList = [] ∨
      findJsonValue objectStr "createdAt".toList = [] ∨
      findJsonValue objectStr "updatedAt".toList = []) :
    parseTaskObject objectStr = none := by
  rw [parseTaskObject]
  by_cases hid : findJsonValue objectStr "id".toList = []
  · rw [if_pos hid]
  · rw [if_neg hid]
    rcases hst : stoiValid (findJsonValue objectStr "id".toList) with _ | v
    · simp only [hst]
    · simp only [hst]
      by_cases hd : findJsonValue objectStr "description".toList = []
      · rw [if_pos hd]
      · rw [if_neg hd]
        by_cases hs : findJsonValue objectStr "status".toList = [] ∨
            ¬ (isValidStatus (findJsonValue objectStr "status".toList) = true)
        · rw [if_pos hs]
        · rw [if_neg hs]
          by_cases hc : findJsonValue objectStr "createdAt".toList = []
          · rw [if_pos hc]
          · rw [if_neg hc]
            by_cases hu : findJsonValue objectStr "updatedAt".toList = []
            · rw [if_pos hu]
            · rcases h with h | h | h | h | h
              · exact absurd h hid
              · exact absurd h hd
              · exact absurd (Or.inl h) hs
              · exact absurd h hc
              · exact absurd h hu

/-- C10: when a key is found but its value opens with a quote that is
never closed by an unescaped quote before the end of the object span,
`findJsonValue` reports the malformed string by returning the empty
string, and the containing task is consequently skipped entirely by the
object parser rather than decoded with a truncated field. -/
theorem malformed_string_value_skips (objectStr key restAfter : List Char)
    (keyPos : Nat)
    (hkey : key = "id".toList ∨ key = "description".toList ∨
      key = "status".toList ∨ key = "createdAt".toList ∨
      key = "updatedAt".toList)
    (hfind : subFind objectStr ('"' :: (key ++ ['"', ':'])) = some keyPos)
    (hdrop : objectStr.drop
        (skipWs objectStr (keyPos + ('"' :: (key ++ ['"', ':'])).length)) =
      '"' :: restAfter)
    (hscan : strScan restAfter false = none) :
    findJsonValue objectStr key = [] ∧ parseTaskObject objectStr = none := by
  have hfv : findJsonValue objectStr key = [] := by
    simp only [findJsonValue, hfind, hdrop, hscan]
    simp
  refine ⟨hfv, parse_none_of_field_empty objectStr ?_⟩
  rcases hkey with h | h | h | h | h
  · exact Or.inl (h ▸ hfv)
  · exact Or.inr (Or.inl (h ▸ hfv))
  · exact Or.inr (Or.inr (Or.inl (h ▸ hfv)))
  · exact Or.inr (Or.inr (Or.inr (Or.inl (h ▸ hfv))))
  · exact Or.inr (Or.inr (Or.inr (Or.inr (h ▸ hfv))))

set_option maxRecDepth 100000 in
/-- C10 witness: an object span whose description value never closes
its quote: the description extraction is empty and the span parses to
no task. -/
theorem malformed_string_value_skips_witness :
    findJsonValue "\"id\": 1, \"description\": \"abc".toList
      "description".toList = [] ∧
    parseTaskObject "\"id\": 1, \"description\": \"abc".toList = none :=
  malformed_string_value_skips "\"id\": 1, \"description\": \"abc".toList
    "description".toList ['a', 'b', 'c'] 9
    (Or.inr (Or.inl rfl)) (by decide) (by decide) (by decide)

set_option maxRecDepth 100000 in
/-- C9: the decoder performs no positivity or uniqueness validation on
ids: a stored `"id": -3` decodes to a task with a negative id (the
numeric scan accepts an optional leading minus), and two stored objects
with the same id decode to two tasks with equal ids, so a decoded
collection need not satisfy the positive-unique-id invariant. -/
theorem load_no_id_validation :
    (loadTasksFromContent ("[ \x7b\"id\": -3, \"description\": \"a\", \"status\": \"todo\", \"createdAt\": \"c\", \"updatedAt\": \"u\"\x7d ]".toList)).map
      Task.id = [-3] ∧
    (loadTasksFromContent ("[\x7b\"id\": 7, \"description\": \"a\", \"status\": \"todo\", \"createdAt\": \"c\", \"updatedAt\": \"u\"\x7d, \x7b\"id\": 7, \"description\": \"b\", \"status\": \"done\", \"createdAt\": \"c\", \"updatedAt\": \"u\"\x7d]".toList)).map
      Task.id = [7, 7] ∧
    isNumStr ['-', '3'] = true := by
  refine ⟨by decide, by decide, by decide⟩

end TaskCli
namespace TaskCli

end TaskCli
